import Mathlib

/-
Verification development for the csvedit repository (src/server.js).

The server is an in-memory tabular data engine: tables with a typed schema
(TEXT / INT / REAL), a CSV codec, a string-rewriting expression evaluator
(class ExpressionEvaluator), a rules engine (INIT / FIXUP / CHECK), and a
command dispatcher (app.post /api/command).

Modelling choices, used consistently below:
* JavaScript numbers (IEEE-754 doubles) are modelled as exact rationals
  (Q0 below, a normalized numerator/denominator pair) extended with the
  special values NaN, Infinity and -Infinity (JsNum).  All numeric values
  the claims exercise are small decimal fractions, where double arithmetic
  is exact, so the rational model agrees with the source.  Math.pow with a
  non-integral exponent would produce an irrational number; it is mapped to
  NaN and is not exercised by any theorem.
* JavaScript strings are Lean Strings (code points instead of UTF-16 units;
  all strings in the claims are ASCII).
* File I/O is factored out: functions that read or write files are modelled
  on the file CONTENT (a String argument or result), exactly as the source
  processes that content.
* The wall clock (TODAY, NOW, ...) and the host RegExp engine used by the
  REGEXP function are injected as parameters of the evaluation context,
  since they are host services, not code of the repository.
* Loops of the source that JavaScript does not bound are given explicit
  fuel; every fuel bound chosen is large enough that it is never exhausted
  on the inputs of the theorems (the source loops are bounded by
  `iterations < 100` counters except where noted).
-/

namespace CsvEdit

/-! ### Exact rationals with kernel-computable arithmetic -/

/-- A rational number as a normalized pair (the `Rat` of the core library
is not used because its arithmetic does not reduce in the kernel). -/
structure Q0 where
  n : Int
  d : Nat
  deriving DecidableEq, Repr

def mkQ0 (n : Int) (d : Nat) : Q0 :=
  if d = 0 then ⟨0, 1⟩
  else
    let g := Nat.gcd n.natAbs d
    ⟨n / (g : Int), d / g⟩

/-- Build a rational from an integer numerator and integer denominator. -/
def mkQI (n d : Int) : Q0 :=
  if d < 0 then mkQ0 (-n) (-d).toNat else mkQ0 n d.toNat

def qAdd (a b : Q0) : Q0 := mkQ0 (a.n * b.d + b.n * a.d) (a.d * b.d)

def qSub (a b : Q0) : Q0 := mkQ0 (a.n * b.d - b.n * a.d) (a.d * b.d)

def qMul (a b : Q0) : Q0 := mkQ0 (a.n * b.n) (a.d * b.d)

def qDiv (a b : Q0) : Q0 := mkQI (a.n * b.d) (a.d * b.n)

def qLt (a b : Q0) : Bool := a.n * b.d < b.n * a.d

def qOfInt (z : Int) : Q0 := ⟨z, 1⟩

def qZero : Q0 := ⟨0, 1⟩

def qIsZero (a : Q0) : Bool := a.n = 0

def qNeg (a : Q0) : Q0 := ⟨-a.n, a.d⟩

/-- Natural-number power of a rational. -/
def qPowNat (a : Q0) : Nat → Q0
  | 0 => ⟨1, 1⟩
  | k + 1 => qMul a (qPowNat a k)

/-! ### JavaScript numbers -/

/-- A JavaScript number: a finite (rational) value, NaN, or an infinity. -/
inductive JsNum where
  | fin (q : Q0)
  | nan
  | inf
  | ninf
  deriving DecidableEq, Repr

def JsNum.isNaN : JsNum → Bool
  | .nan => true
  | _ => false

/-- JavaScript truthiness of a number: NaN and 0 are falsy. -/
def JsNum.truthy : JsNum → Bool
  | .fin q => !(qIsZero q)
  | .nan => false
  | .inf => true
  | .ninf => true

def numAdd : JsNum → JsNum → JsNum
  | .fin a, .fin b => .fin (qAdd a b)
  | .nan, _ => .nan
  | _, .nan => .nan
  | .inf, .ninf => .nan
  | .ninf, .inf => .nan
  | .inf, _ => .inf
  | _, .inf => .inf
  | .ninf, _ => .ninf
  | _, .ninf => .ninf

def numSub : JsNum → JsNum → JsNum
  | .fin a, .fin b => .fin (qSub a b)
  | .nan, _ => .nan
  | _, .nan => .nan
  | .inf, .inf => .nan
  | .ninf, .ninf => .nan
  | .inf, _ => .inf
  | _, .inf => .ninf
  | .ninf, _ => .ninf
  | _, .ninf => .inf

def numMul : JsNum → JsNum → JsNum
  | .fin a, .fin b => .fin (qMul a b)
  | .nan, _ => .nan
  | _, .nan => .nan
  | .inf, .fin b => if qIsZero b then .nan else if qLt b qZero then .ninf else .inf
  | .fin a, .inf => if qIsZero a then .nan else if qLt a qZero then .ninf else .inf
  | .ninf, .fin b => if qIsZero b then .nan else if qLt b qZero then .inf else .ninf
  | .fin a, .ninf => if qIsZero a then .nan else if qLt a qZero then .inf else .ninf
  | .inf, .inf => .inf
  | .inf, .ninf => .ninf
  | .ninf, .inf => .ninf
  | .ninf, .ninf => .inf

def numDiv : JsNum → JsNum → JsNum
  | .fin a, .fin b =>
    if qIsZero b then
      if qIsZero a then .nan
      else if qLt a qZero then .ninf else .inf
    else .fin (qDiv a b)
  | .nan, _ => .nan
  | _, .nan => .nan
  | .inf, .inf => .nan
  | .inf, .ninf => .nan
  | .ninf, .inf => .nan
  | .ninf, .ninf => .nan
  | .inf, .fin b => if qLt b qZero then .ninf else .inf
  | .ninf, .fin b => if qLt b qZero then .inf else .ninf
  | .fin _, .inf => .fin qZero
  | .fin _, .ninf => .fin qZero

/-- Math.pow.  A non-integral exponent on a finite base would produce an
irrational result; the rational model maps it to NaN (no claim uses it). -/
def numPow : JsNum → JsNum → JsNum
  | b, .fin e =>
    if e.d = 1 then
      match b with
      | .fin a =>
        if 0 ≤ e.n then .fin (qPowNat a e.n.toNat)
        else if qIsZero a then .inf
        else .fin (qDiv ⟨1, 1⟩ (qPowNat a (-e.n).toNat))
      | .nan => if e.n = 0 then .fin ⟨1, 1⟩ else .nan
      | .inf => if e.n = 0 then .fin ⟨1, 1⟩ else if 0 < e.n then .inf else .fin qZero
      | .ninf => if e.n = 0 then .fin ⟨1, 1⟩ else .nan
    else .nan
  | _, .nan => .nan
  | _, .inf => .nan
  | _, .ninf => .nan

def numLt : JsNum → JsNum → Bool
  | .fin a, .fin b => qLt a b
  | .nan, _ => false
  | _, .nan => false
  | .inf, _ => false
  | .ninf, .ninf => false
  | .ninf, _ => true
  | .fin _, .inf => true
  | .fin _, .ninf => false

def numGt (a b : JsNum) : Bool := numLt b a

/-- Strict equality (===) on numbers; NaN is equal to nothing. -/
def numEq : JsNum → JsNum → Bool
  | .fin a, .fin b => a = b
  | .inf, .inf => true
  | .ninf, .ninf => true
  | _, _ => false

/-! ### Character classes and list-of-characters helpers -/

/-- The single-quote character (written by code to avoid literal quotes). -/
def sq : Char := Char.ofNat 39

/-- The double-quote character. -/
def dq : Char := '"'

/-- JavaScript whitespace (the characters relevant to this code base). -/
def jsIsWs (c : Char) : Bool :=
  c = ' ' || c = '\t' || c = '\n' || c = '\x0d' ||
  c = Char.ofNat 11 || c = Char.ofNat 12 || c = Char.ofNat 160

def isDigitC (c : Char) : Bool := '0' ≤ c && c ≤ '9'

def isAlphaC (c : Char) : Bool := ('a' ≤ c && c ≤ 'z') || ('A' ≤ c && c ≤ 'Z')

/-- A character of the identifier class [A-Za-z0-9_] (regex \w). -/
def isWordC (c : Char) : Bool := isAlphaC c || isDigitC c || c = '_'

/-- A character that may start an identifier: [A-Za-z_]. -/
def isIdStartC (c : Char) : Bool := isAlphaC c || c = '_'

def startsWithL : List Char → List Char → Bool
  | [], _ => true
  | _, [] => false
  | p :: ps, c :: cs => p = c && startsWithL ps cs

/-- Does `sub` occur anywhere in `cs`? -/
def containsSub (sub : List Char) : List Char → Bool
  | [] => startsWithL sub []
  | c :: cs => startsWithL sub (c :: cs) || containsSub sub cs

def jsTrimL (cs : List Char) : List Char :=
  ((cs.dropWhile jsIsWs).reverse.dropWhile jsIsWs).reverse

/-- String.prototype.trim. -/
def jsTrim (s : String) : String := (jsTrimL s.data).asString

/-- str.toUpperCase restricted to ASCII (all schema strings are ASCII). -/
def jsUpper (s : String) : String :=
  (s.data.map fun c => if 'a' ≤ c && c ≤ 'z' then Char.ofNat (c.toNat - 32) else c).asString

/-- str.replace(pat, rep) with a plain-string pattern: replaces only the
first occurrence. -/
def replaceFirstL (pat rep : List Char) : List Char → List Char
  | [] => []
  | c :: cs =>
    if startsWithL pat (c :: cs) ∧ pat ≠ [] then
      rep ++ List.drop pat.length (c :: cs)
    else c :: replaceFirstL pat rep cs

def replaceFirst (s pat rep : String) : String :=
  (replaceFirstL pat.data rep.data s.data).asString

/-! ### Number formatting and parsing (String(n), parseFloat, parseInt) -/

def digitsVal (ds : List Char) : Nat :=
  ds.foldl (fun acc c => acc * 10 + (c.toNat - 48)) 0

def natDigitsAux : Nat → Nat → List Char
  | 0, _ => []
  | f + 1, n => if n < 10 then [Nat.digitChar n] else natDigitsAux f (n / 10) ++ [Nat.digitChar (n % 10)]

/-- Decimal digits of a natural number (fuel 40 covers all values the
source can produce). -/
def natToStr (n : Nat) : String := (natDigitsAux 40 n).asString

def intToStr (z : Int) : String :=
  (if z < 0 then "-" else "") ++ natToStr z.natAbs

/-- Smallest k ≤ fuel with d ∣ 10^k, if any. -/
def decExponent (d : Nat) : Nat → Nat → Option Nat
  | 0, _ => none
  | f + 1, k => if d ∣ 10 ^ k then some k else decExponent d f (k + 1)

/-- String(n) for a finite JavaScript number.  Exact for integers and
terminating decimal fractions, which covers every number the evaluator can
build from its decimal inputs; other rationals (never produced) fall back
to a fraction rendering. -/
def qToString (q : Q0) : String :=
  if q.d = 1 then intToStr q.n
  else
    match decExponent q.d 60 0 with
    | some k =>
      let m : Nat := (q.n.natAbs * 10 ^ k) / q.d
      let ipart := m / 10 ^ k
      let fdigits := natDigitsAux 40 (m % 10 ^ k)
      let fpad := List.replicate (k - fdigits.length) '0' ++ fdigits
      (if q.n < 0 then "-" else "") ++ natToStr ipart ++ "." ++ fpad.asString
    | none => intToStr q.n ++ "/" ++ natToStr q.d

def jsNumToString : JsNum → String
  | .fin q => qToString q
  | .nan => "NaN"
  | .inf => "Infinity"
  | .ninf => "-Infinity"

/-- Exponent part accepted by parseFloat after the mantissa. -/
def parseFloatExp (cs : List Char) : Int :=
  match cs with
  | 'e' :: r | 'E' :: r =>
    let (sgn, r1) : Int × List Char :=
      match r with
      | '+' :: t => (1, t)
      | '-' :: t => (-1, t)
      | t => (1, t)
    let ds := r1.takeWhile isDigitC
    if ds = [] then 0 else sgn * (digitsVal ds : Int)
  | _ => 0

def parseFloatBody (sgn : Int) (r : List Char) : JsNum :=
  if startsWithL "Infinity".data r then (if sgn < 0 then .ninf else .inf)
  else
    let ds := r.takeWhile isDigitC
    let r1 := r.dropWhile isDigitC
    let (fs, r2) : List Char × List Char :=
      match r1 with
      | '.' :: t => (t.takeWhile isDigitC, t.dropWhile isDigitC)
      | _ => ([], r1)
    if ds = [] ∧ fs = [] then .nan
    else
      let mant : Q0 := mkQ0 (sgn * ((digitsVal ds * 10 ^ fs.length + digitsVal fs : Nat) : Int)) (10 ^ fs.length)
      let e := parseFloatExp r2
      if 0 ≤ e then .fin (qMul mant ⟨(10 : Int) ^ e.toNat, 1⟩)
      else .fin (qMul mant (mkQ0 1 (10 ^ (-e).toNat)))

/-- parseFloat: skips leading whitespace, accepts an optional sign, an
optional Infinity, a decimal mantissa and an optional exponent; NaN when no
digits are found. -/
def jsParseFloat (s : String) : JsNum :=
  let cs := s.data.dropWhile jsIsWs
  match cs with
  | '+' :: r => parseFloatBody 1 r
  | '-' :: r => parseFloatBody (-1) r
  | r => parseFloatBody 1 r

/-- parseInt(s, 10): leading whitespace, optional sign, maximal run of
decimal digits; none gives NaN. -/
def jsParseInt10 (s : String) : Option Int :=
  let cs := s.data.dropWhile jsIsWs
  let (sgn, r) : Int × List Char :=
    match cs with
    | '+' :: t => (1, t)
    | '-' :: t => (-1, t)
    | t => (1, t)
  let ds := r.takeWhile isDigitC
  if ds = [] then none else some (sgn * (digitsVal ds : Int))

/-- Number.prototype.toFixed(1).  Following the ECMAScript algorithm: the
sign is taken first, then the integer n closest to 10*|x| is chosen,
picking the larger n on ties. -/
def qToFixed1 (q : Q0) : String :=
  let nn : Nat := (20 * q.n.natAbs + q.d) / (2 * q.d)
  (if q.n < 0 then "-" else "") ++ natToStr (nn / 10) ++ "." ++ (Nat.digitChar (nn % 10)).toString

def jsToFixed1 : JsNum → String
  | .fin q => qToFixed1 q
  | .nan => "NaN"
  | .inf => "Infinity"
  | .ninf => "-Infinity"

/-! ### JavaScript values, rows, tables, registry -/

/-- A JavaScript value as stored in a row cell or passed to a function:
a string, a number, or undefined (a missing function argument or a missing
object property). -/
inductive JsVal where
  | vstr (s : String)
  | vnum (x : JsNum)
  | vundef
  deriving DecidableEq, Repr

/-- String(v). -/
def jsValToString : JsVal → String
  | .vstr s => s
  | .vnum x => jsNumToString x
  | .vundef => "undefined"

/-- JavaScript truthiness of a value. -/
def jsValTruthy : JsVal → Bool
  | .vstr s => s ≠ ""
  | .vnum x => x.truthy
  | .vundef => false

/-- A row: a JavaScript object, an insertion-ordered association list. -/
abbrev Row := List (String × JsVal)

def rowGet : Row → String → Option JsVal
  | [], _ => none
  | (k, v) :: r, key => if k = key then some v else rowGet r key

/-- row[key] = v: updates the existing property in place, or appends. -/
def rowSet (r : Row) (key : String) (v : JsVal) : Row :=
  if (r.find? fun p => p.1 = key).isSome then
    r.map fun p => if p.1 = key then (p.1, v) else p
  else r ++ [(key, v)]

/-- delete row[key]. -/
def rowDelete (r : Row) (key : String) : Row :=
  r.filter fun p => p.1 ≠ key

structure Col where
  name : String
  type : String
  deriving DecidableEq, Repr

structure Table where
  schema : List Col
  rows : List Row
  originalFile : String
  deriving DecidableEq, Repr

/-- The global `tables` object: an insertion-ordered map. -/
abbrev Registry := List (String × Table)

def lookupT : Registry → String → Option Table
  | [], _ => none
  | (k, v) :: r, key => if k = key then some v else lookupT r key

/-- tables[name] = t. -/
def updateT (reg : Registry) (key : String) (t : Table) : Registry :=
  if (reg.find? fun p => p.1 = key).isSome then
    reg.map fun p => if p.1 = key then (p.1, t) else p
  else reg ++ [(key, t)]

/-- delete tables[name]. -/
def deleteKeyT (reg : Registry) (key : String) : Registry :=
  reg.filter fun p => p.1 ≠ key

def joinWith (sep : String) : List String → String
  | [] => ""
  | [x] => x
  | x :: xs => x ++ sep ++ joinWith sep xs

/-! ### CSV codec (parseCSVLine, parseSchema, parseValue, load / save) -/

/-- The field scanner of parseCSVLine: characters, inQuotes state, current
field, fields so far. -/
def parseCSVLineAux : List Char → Bool → List Char → List String → List String
  | '"' :: '"' :: rest, true, cur, fs => parseCSVLineAux rest true (cur ++ ['"']) fs
  | '"' :: rest, inQ, cur, fs => parseCSVLineAux rest (!inQ) cur fs
  | ',' :: rest, false, cur, fs => parseCSVLineAux rest false [] (fs ++ [jsTrim cur.asString])
  | c :: rest, inQ, cur, fs => parseCSVLineAux rest inQ (cur ++ [c]) fs
  | [], _, cur, fs => fs ++ [jsTrim cur.asString]

/-- Parses a CSV line, handling quoted fields and escaped quotes; unquoted
parts of every field are trimmed (src/server.js parseCSVLine). -/
def parseCSVLine (line : String) : List String :=
  parseCSVLineAux line.data false [] []

/-- col.split(c) for a single-character separator. -/
def splitOnCAux (c : Char) : List Char → List Char → List String
  | [], cur => [cur.asString]
  | x :: rest, cur =>
    if x = c then cur.asString :: splitOnCAux c rest []
    else splitOnCAux c rest (cur ++ [x])

def splitOnC (c : Char) (s : String) : List String := splitOnCAux c s.data []

/-- Parses the schema line: each field is name or name:TYPE, the type is
upper-cased, a missing type is TEXT (src/server.js parseSchema). -/
def parseSchema (firstLine : String) : List Col :=
  (parseCSVLine firstLine).map fun col =>
    let parts := splitOnC ':' col
    let name := jsTrim (parts.headD "")
    let type := match parts with
      | _ :: t :: _ => jsUpper (jsTrim t)
      | _ => "TEXT"
    ⟨name, type⟩

/-- Removes commas and dollar signs (src/server.js cleanRealValue). -/
def cleanRealValue (value : String) : String :=
  (value.data.filter fun c => !(c = ',' || c = '$')).asString

/-- Parses a raw field according to the column type
(src/server.js parseValue; the input here is always a string field). -/
def parseValue (value : String) (type : String) : JsVal :=
  if value = "" then
    match type with
    | "INT" => .vnum (.fin qZero)
    | "REAL" => .vnum (.fin qZero)
    | "TEXT" => .vstr ""
    | _ => .vstr ""
  else
    match type with
    | "INT" =>
      match jsParseInt10 value with
      | none => .vnum (.fin qZero)
      | some z => .vnum (.fin (qOfInt z))
    | "REAL" =>
      let cleaned := cleanRealValue value
      match jsParseFloat cleaned with
      | .nan => .vnum (.fin qZero)
      | x => .vnum x
    | "TEXT" => .vstr value
    | _ => .vstr value

/-- content.split(/\r?\n/). -/
def splitLinesAux : List Char → List Char → List String
  | [], cur => [cur.asString]
  | '\x0d' :: '\n' :: rest, cur => cur.asString :: splitLinesAux rest []
  | '\n' :: rest, cur => cur.asString :: splitLinesAux rest []
  | c :: rest, cur => splitLinesAux rest (cur ++ [c])

def splitLines (s : String) : List String := splitLinesAux s.data []

def jsStartsWithQ (s : String) : Bool :=
  match s.data with
  | c :: _ => c = '"'
  | [] => false

def jsEndsWithQ (s : String) : Bool :=
  match s.data.reverse with
  | c :: _ => c = '"'
  | [] => false

/-- value.replace(dq dq, dq) globally: undoubles quotes. -/
def undoubleQuotes : List Char → List Char
  | '"' :: '"' :: rest => '"' :: undoubleQuotes rest
  | c :: rest => c :: undoubleQuotes rest
  | [] => []

/-- The quote-stripping step of the row loader: a field both starting and
ending with a double quote loses them, inner doubled quotes undouble. -/
def unquoteField (value : String) : String :=
  if jsStartsWithQ value ∧ jsEndsWithQ value then
    (undoubleQuotes (value.data.drop 1).dropLast).asString
  else value

/-- The per-row parsing loop of loadCSVFiles: pads short rows with the
empty field, strips surrounding quotes and undoubles inner quotes, and
parses by column type. -/
def parseRowFields (schema : List Col) (fields : List String) : Row :=
  (List.range schema.length).foldl
    (fun row j =>
      match schema.get? j with
      | none => row
      | some col =>
        let value := (fields.get? j).getD ""
        rowSet row col.name (parseValue (unquoteField value) col.type))
    []

/-- The pure content part of loadCSVFiles for one file: split into
non-blank lines, parse the schema from the first, then the rows. -/
def loadTableContent (content : String) : Option (List Col × List Row) :=
  let lines := (splitLines content).filter fun line => jsTrim line ≠ ""
  match lines with
  | [] => none
  | first :: rest =>
    let schema := parseSchema first
    some (schema, rest.map fun line => parseRowFields schema (parseCSVLine line))

/-- value.replace(quote, quote-quote): doubles every double quote. -/
def escQuotes (l : List Char) : List Char :=
  l.flatMap fun c => if c = '"' then ['"', '"'] else [c]

/-- Escapes one CSV field text: quote iff it contains a comma, double
quote, CR or LF, doubling inner quotes. -/
def escString (str : String) : String :=
  if containsSub [','] str.data || containsSub ['"'] str.data ||
      containsSub ['\n'] str.data || containsSub ['\x0d'] str.data then
    "\"" ++ (escQuotes str.data).asString ++ "\""
  else str

/-- Escapes one CSV field (saveTable.escapeCSVField). -/
def escapeCSVField : JsVal → String
  | .vundef => ""
  | v => escString (jsValToString v)

/-- The REAL formatting step of saveTable before escaping. -/
def saveFieldValue (colType : String) (value : Option JsVal) : JsVal :=
  match value with
  | none => if colType = "REAL" then .vundef else .vstr ""
  | some v =>
    if colType = "REAL" then
      match v with
      | .vnum x => .vstr (jsToFixed1 x)
      | .vstr s =>
        match jsParseFloat s with
        | .nan => .vstr s
        | x => .vstr (jsToFixed1 x)
      | .vundef => .vundef
    else v

/-- The pure content part of saveTable: schema header line then one line
per row, joined with a newline. -/
def saveTableContent (schema : List Col) (rows : List Row) : String :=
  let schemaLine := joinWith "," (schema.map fun col => col.name ++ ":" ++ col.type)
  let rowLines := rows.map fun row =>
    joinWith "," (schema.map fun col =>
      escapeCSVField (saveFieldValue col.type (rowGet row col.name)))
  joinWith "\n" (schemaLine :: rowLines)

/-! ### Expression evaluator (class ExpressionEvaluator)

The source evaluator rewrites the expression STRING in stages:
conditional split, function calls, parentheses, field references, string
literals, boolean operators, unary minus, arithmetic, comparisons.  Each
regex of the source is translated into an explicit scanner below. -/

def numNeg : JsNum → JsNum
  | .fin q => .fin (qNeg q)
  | .nan => .nan
  | .inf => .ninf
  | .ninf => .inf

def toLowerC (c : Char) : Char :=
  if 'A' ≤ c && c ≤ 'Z' then Char.ofNat (c.toNat + 32) else c

/-- value.replace(caret-quote or quote-dollar, empty) as used by TOTAL,
REGEXP and DELETE_ROWS: strips one leading and one trailing double quote. -/
def stripOuterQuotes (s : String) : String :=
  let cs := s.data
  let cs := match cs with
    | '"' :: rest => rest
    | l => l
  let cs := match cs.reverse with
    | '"' :: rest => rest.reverse
    | _ => cs
  cs.asString

/-- The evaluator's _toNumber: numbers pass through; a double-quoted
string is 0 when empty and 1 otherwise; other strings go through
parseFloat with NaN mapped to 0; anything else is 0. -/
def toNumberVal : JsVal → JsNum
  | .vnum x => x
  | .vstr s =>
    if jsStartsWithQ s ∧ jsEndsWithQ s then
      if (s.data.drop 1).dropLast = [] then .fin qZero else .fin ⟨1, 1⟩
    else
      match jsParseFloat s with
      | .nan => .fin qZero
      | x => x
  | .vundef => .fin qZero

/-! #### Conditional split (the rightmost ? : scan of _evaluateExpression) -/

/-- Phase 2 of the scan: the top-level colon has been found; look further
left for a question mark at depth 0. -/
def condScan2 : List Char → Int → List Char → List Char →
    Option (List Char × List Char × List Char)
  | [], _, _, _ => none
  | c :: rest, depth, accT, accF =>
    if c = ')' then condScan2 rest (depth + 1) (c :: accT) accF
    else if c = '(' then condScan2 rest (depth - 1) (c :: accT) accF
    else if depth = 0 ∧ c = '?' then some (rest.reverse, accT, accF)
    else condScan2 rest depth (c :: accT) accF

/-- Phase 1 of the scan: looking (right to left) for the rightmost colon
at parenthesis depth 0. -/
def condScan1 : List Char → Int → List Char →
    Option (List Char × List Char × List Char)
  | [], _, _ => none
  | c :: rest, depth, accF =>
    if c = ')' then condScan1 rest (depth + 1) (c :: accF)
    else if c = '(' then condScan1 rest (depth - 1) (c :: accF)
    else if depth = 0 ∧ c = ':' then condScan2 rest depth [] accF
    else condScan1 rest depth (c :: accF)

/-- The conditional handling of _evaluateExpression: pairs the rightmost
depth-0 colon with the rightmost question mark to its left and returns the
trimmed condition, true part and false part. -/
def condSplit (s : String) : Option (String × String × String) :=
  match condScan1 s.data.reverse 0 [] with
  | none => none
  | some (cond, t, f) =>
    some (jsTrim cond.asString, jsTrim t.asString, jsTrim f.asString)

/-! #### Token matchers for the value regexes -/

/-- Matches (digits (dot digits)?) at the head of the list, the regex
token of the arithmetic and boolean rewrites. -/
def matchNum (cs : List Char) : Option (List Char × List Char) :=
  let ds := cs.takeWhile isDigitC
  if ds = [] then none
  else
    let r1 := cs.dropWhile isDigitC
    match r1 with
    | '.' :: t =>
      let fs := t.takeWhile isDigitC
      if fs = [] then some (ds, r1)
      else some (ds ++ '.' :: fs, t.dropWhile isDigitC)
    | _ => some (ds, r1)

/-- Matches the token with an optional leading minus (comparisons). -/
def matchNumNeg (cs : List Char) : Option (List Char × List Char) :=
  match cs with
  | '-' :: rest =>
    match matchNum rest with
    | some (tok, r) => some ('-' :: tok, r)
    | none => none
  | _ => matchNum cs

/-- Matches a double-quoted run with no inner quote. -/
def matchQuoted (cs : List Char) : Option (List Char × List Char) :=
  match cs with
  | '"' :: rest =>
    let inner := rest.takeWhile fun c => c ≠ '"'
    match rest.dropWhile (fun c => c ≠ '"') with
    | '"' :: r => some ('"' :: inner ++ ['"'], r)
    | _ => none
  | _ => none

/-- The value token of the comparison / boolean regexes. -/
def matchValueTok (allowNeg : Bool) (cs : List Char) : Option (List Char × List Char) :=
  match (if allowNeg then matchNumNeg cs else matchNum cs) with
  | some r => some r
  | none => matchQuoted cs

/-- One global replace pass of  value op value  (the binary-operator
regexes): scans left to right, does not rescan replacements, reports
whether any match was processed. -/
def replaceBinopAux (allowNeg : Bool) (opStr : List Char)
    (cb : String → String → Except String String) :
    Nat → List Char → Except String (List Char × Bool)
  | 0, cs => .ok (cs, false)
  | fuel + 1, cs =>
    match cs with
    | [] => .ok ([], false)
    | c :: rest =>
      let attempt : Option (String × String × List Char) :=
        match matchValueTok allowNeg cs with
        | none => none
        | some (tok1, r1) =>
          let r1b := r1.dropWhile jsIsWs
          if startsWithL opStr r1b then
            let r2 := (r1b.drop opStr.length).dropWhile jsIsWs
            match matchValueTok allowNeg r2 with
            | none => none
            | some (tok2, r3) => some (tok1.asString, tok2.asString, r3)
          else none
      match attempt with
      | some (t1, t2, r3) =>
        match cb t1 t2 with
        | .error e => .error e
        | .ok rep =>
          match replaceBinopAux allowNeg opStr cb fuel r3 with
          | .error e => .error e
          | .ok (tail, _) => .ok (rep.data ++ tail, true)
      | none =>
        match replaceBinopAux allowNeg opStr cb fuel rest with
        | .error e => .error e
        | .ok (tail, found) => .ok (c :: tail, found)

def replaceBinop (allowNeg : Bool) (opStr : String)
    (cb : String → String → Except String String) (s : String) :
    Except String (String × Bool) :=
  match replaceBinopAux allowNeg opStr.data cb (s.data.length + 1) s.data with
  | .error e => .error e
  | .ok (cs, found) => .ok (cs.asString, found)

/-! #### String literals, boolean operators -/

/-- _handleStringLiterals: rewrites every single-quoted run into a
double-quoted one. -/
def handleStringLiteralsAux : Nat → List Char → List Char
  | 0, cs => cs
  | fuel + 1, cs =>
    match cs with
    | [] => []
    | c :: rest =>
      if c = sq then
        let inner := rest.takeWhile fun x => x ≠ sq
        match rest.dropWhile (fun x => x ≠ sq) with
        | _ :: r => '"' :: inner ++ '"' :: handleStringLiteralsAux fuel r
        | [] => c :: rest
      else c :: handleStringLiteralsAux fuel rest

def handleStringLiterals (s : String) : String :=
  (handleStringLiteralsAux (s.data.length + 1) s.data).asString

/-- One global pass of the NOT rewrite: bang followed by a number or a
quoted run becomes 1 or 0. -/
def notPassAux : Nat → List Char → List Char × Bool
  | 0, cs => (cs, false)
  | fuel + 1, cs =>
    match cs with
    | [] => ([], false)
    | '!' :: rest =>
      match matchValueTok false rest with
      | some (tok, r) =>
        let num := toNumberVal (.vstr tok.asString)
        let rep := if num.truthy then "0" else "1"
        let (tail, _) := notPassAux fuel r
        (rep.data ++ tail, true)
      | none =>
        let (tail, found) := notPassAux fuel rest
        ('!' :: tail, found)
    | c :: rest =>
      let (tail, found) := notPassAux fuel rest
      (c :: tail, found)

/-- The NOT loop of _handleBooleanOps (iterations capped at 100). -/
def notLoop : Nat → String → String
  | 0, s => s
  | n + 1, s =>
    let (cs, found) := notPassAux (s.data.length + 1) s.data
    let s2 := cs.asString
    if found ∧ s2 ≠ s then notLoop n s2 else s2

/-- The while (regex.test) replace loop for one of the two binary boolean
operators. -/
def boolOpLoop (opStr : String) (cb : String → String → String) :
    Nat → String → String
  | 0, s => s
  | n + 1, s =>
    match replaceBinop false opStr (fun a b => .ok (cb a b)) s with
    | .error _ => s
    | .ok (s2, found) => if found then boolOpLoop opStr cb n s2 else s

/-- _handleBooleanOps: the NOT loop, then AND to fixpoint, then OR. -/
def handleBooleanOps (s : String) : String :=
  let s1 := notLoop 100 s
  let andCb := fun (a b : String) =>
    let l := toNumberVal (.vstr a)
    let r := toNumberVal (.vstr b)
    if l.truthy ∧ r.truthy then "1" else "0"
  let s2 := boolOpLoop "&&" andCb (s1.data.length + 1) s1
  let orCb := fun (a b : String) =>
    let l := toNumberVal (.vstr a)
    let r := toNumberVal (.vstr b)
    if l.truthy ∨ r.truthy then "1" else "0"
  boolOpLoop "||" orCb (s2.data.length + 1) s2

/-! #### Comparisons (_handleComparisons, _compareValues) -/

/-- JavaScript string order (code-unit lexicographic). -/
def strLtL : List Char → List Char → Bool
  | [], [] => false
  | [], _ :: _ => true
  | _ :: _, [] => false
  | a :: as_, b :: bs => if a < b then true else if b < a then false else strLtL as_ bs

def sliceEnds (s : String) : String := ((s.data.drop 1).dropLast).asString

/-- _compareValues: both operands quoted means TEXT compared
lexicographically, both unquoted means numeric comparison via _toNumber,
and a mix is a type error; returns 1 for true and 0 for false. -/
def compareValues (leftStr rightStr op : String) : Except String Nat :=
  let leftIsString := jsStartsWithQ leftStr && jsEndsWithQ leftStr
  let rightIsString := jsStartsWithQ rightStr && jsEndsWithQ rightStr
  if leftIsString != rightIsString then
    .error ("Type mismatch: cannot compare " ++
      (if leftIsString then "TEXT" else "numeric") ++ " with " ++
      (if rightIsString then "TEXT" else "numeric"))
  else if leftIsString then
    let leftVal := sliceEnds leftStr
    let rightVal := sliceEnds rightStr
    match op with
    | "<" => .ok (if strLtL leftVal.data rightVal.data then 1 else 0)
    | ">" => .ok (if strLtL rightVal.data leftVal.data then 1 else 0)
    | "=" => .ok (if leftVal = rightVal then 1 else 0)
    | "!=" => .ok (if leftVal ≠ rightVal then 1 else 0)
    | _ => .error ("Unknown comparison operator: " ++ op)
  else
    let leftNum := toNumberVal (.vstr leftStr)
    let rightNum := toNumberVal (.vstr rightStr)
    match op with
    | "<" => .ok (if numLt leftNum rightNum then 1 else 0)
    | ">" => .ok (if numGt leftNum rightNum then 1 else 0)
    | "=" => .ok (if numEq leftNum rightNum then 1 else 0)
    | "!=" => .ok (if !numEq leftNum rightNum then 1 else 0)
    | _ => .error ("Unknown comparison operator: " ++ op)

/-- One iteration of the comparison loop: a global replace for each of
!=, <, > and = in that order. -/
def cmpPass (s : String) : Except String (String × Bool) := do
  let cb := fun (op : String) (a b : String) =>
    match compareValues a b op with
    | .error e => .error e
    | .ok n => .ok (natToStr n)
  let (s1, f1) ← replaceBinop true "!=" (cb "!=") s
  let (s2, f2) ← replaceBinop true "<" (cb "<") s1
  let (s3, f3) ← replaceBinop true ">" (cb ">") s2
  let (s4, f4) ← replaceBinop true "=" (cb "=") s3
  .ok (s4, f1 || f2 || f3 || f4)

def handleCompLoop : Nat → String → Except String String
  | 0, s => .ok s
  | n + 1, s => do
    let (s2, found) ← cmpPass s
    if found then handleCompLoop n s2 else pure s2

/-- _handleComparisons (the loop is capped at 100 iterations). -/
def handleComparisons (s : String) : Except String String := handleCompLoop 100 s

/-! #### Arithmetic (_handleArithmetic) -/

/-- Protects double-quoted runs behind placeholder keys, returning the
rewritten text and the stored values in order. -/
def protectQuotedAux (tag : String) : Nat → List Char → Nat →
    (List Char × List (List Char) × Nat)
  | 0, cs, idx => (cs, [], idx)
  | fuel + 1, cs, idx =>
    match cs with
    | [] => ([], [], idx)
    | '"' :: rest =>
      let inner := rest.takeWhile fun c => c ≠ '"'
      match rest.dropWhile (fun c => c ≠ '"') with
      | '"' :: r =>
        let key := ("__" ++ tag ++ "_" ++ natToStr idx ++ "__").data
        let (tail, stored, idx2) := protectQuotedAux tag fuel r (idx + 1)
        (key ++ tail, ('"' :: inner ++ ['"']) :: stored, idx2)
      | _ => ('"' :: rest, [], idx)
    | c :: rest =>
      let (tail, stored, idx2) := protectQuotedAux tag fuel rest idx
      (c :: tail, stored, idx2)

/-- Restores protected values: one replace of the first occurrence of each
key, in index order. -/
def restoreProtected (tag : String) : List (List Char) → Nat → List Char → List Char
  | [], _, cs => cs
  | v :: vs, i, cs =>
    restoreProtected tag vs (i + 1)
      (replaceFirstL ("__" ++ tag ++ "_" ++ natToStr i ++ "__").data v cs)

/-- One single-pass arithmetic rewrite for one operator. -/
def arithPass (opStr : String) (f : JsNum → JsNum → JsNum) (s : String) : String :=
  let cb := fun (a b : String) => Except.ok (α := String)
    (jsNumToString (f (jsParseFloat a) (jsParseFloat b)))
  match replaceBinop false opStr cb s with
  | .ok (r, _) => r
  | .error _ => s

def arithOpChars : List Char := ['=', '<', '>', '!', '+', '-', '*', '/', '^']

/-- _handleArithmetic: protect quoted runs, one pass for each operator in
the order caret, star, slash, plus, minus, restore, then the final
quoted-string unwrap and numeric normalization. -/
def handleArithmetic (s : String) : String :=
  let (csP, stored, _) := protectQuotedAux "STRING" (s.data.length + 1) s.data 0
  let e := csP.asString
  let e := arithPass "^" numPow e
  let e := arithPass "*" numMul e
  let e := arithPass "/" numDiv e
  let e := arithPass "+" numAdd e
  let e := arithPass "-" numSub e
  let e2 := (restoreProtected "STRING" stored 0 e.data).asString
  if jsStartsWithQ e2 ∧ jsEndsWithQ e2 ∧
      (arithOpChars.all fun c => !containsSub [c] e2.data) then
    sliceEnds e2
  else
    match jsParseFloat e2 with
    | .nan => e2
    | x => if jsTrim e2 = jsNumToString x then jsNumToString x else e2

/-! #### Evaluation context -/

/-- The wall clock, injected as fixed strings (TODAY / DAY / MONTH / YEAR /
NOW read the host clock). -/
structure Clock where
  todayStr : String
  dayStr : String
  monthStr : String
  yearStr : String
  nowStr : String

/-- The evaluator state: this.row, this.tables, this.currentTable, plus
the injected host services (clock, and the host RegExp engine used by the
REGEXP function: first match of a pattern in a string, none when the
pattern is invalid or there is no match — both produce the empty string). -/
structure EvalCtx where
  row : Option Row
  tables : Registry
  currentTable : Option String
  clock : Clock
  regexpMatch : String → String → Option String

def fixedClock : Clock := ⟨"2024/01/01", "01", "01", "2024", "00:00:00"⟩

/-- _getFieldValue: the current row's own property, null when absent. -/
def getFieldValue (ctx : EvalCtx) (fieldName : String) : Option JsVal :=
  match ctx.row with
  | some r => rowGet r fieldName
  | none => none

def rowsMatchOnSchema (schema : List Col) (r1 r2 : Row) : Bool :=
  schema.all fun col => rowGet r1 col.name == rowGet r2 col.name

/-- The row-index search of CURR_ROW and _getFieldValueWithOffset: the
first row whose values agree with this.row on every schema column.  (The
source first tries indexOf by object reference; for value-distinct rows
the value comparison below returns the same index.) -/
def findRowIndexAux (schema : List Col) (r : Row) : List Row → Nat → Option Nat
  | [], _ => none
  | x :: xs, i =>
    if rowsMatchOnSchema schema x r then some i else findRowIndexAux schema r xs (i + 1)

def findRowIndex (t : Table) (r : Row) : Option Nat :=
  findRowIndexAux t.schema r t.rows 0

/-- Math.round of an offset; NaN never reaches this point and an infinite
offset always lands out of bounds, modelled as none. -/
def jsRound : JsNum → Option Int
  | .fin q => some (Int.fdiv (2 * q.n + q.d) (2 * (q.d : Int)))
  | _ => none

/-- _getFieldValueWithOffset. -/
def getFieldValueWithOffset (ctx : EvalCtx) (fieldName : String)
    (offset : Option Int) : Option JsVal :=
  match ctx.row with
  | none => none
  | some row =>
    match ctx.currentTable with
    | none => none
    | some ct =>
      if ct = "" then none
      else
        match lookupT ctx.tables ct with
        | none => none
        | some table =>
          match findRowIndex table row with
          | none => none
          | some cur =>
            match offset with
            | none => none
            | some off =>
              let target : Int := (cur : Int) + off
              if target < 0 ∨ (table.rows.length : Int) ≤ target then none
              else
                match table.rows.get? target.toNat with
                | some tr => rowGet tr fieldName
                | none => none

/-! #### The function table of _handleFunctions -/

def jsArg (args : List JsVal) (i : Nat) : JsVal := (args.get? i).getD JsVal.vundef

/-- parseFloat applied to a JavaScript value (coerces through String). -/
def parseFloatOfVal : JsVal → JsNum
  | .vnum x => x
  | .vstr s => jsParseFloat s
  | .vundef => .nan

def blankBody (ctx : EvalCtx) (args : List JsVal) : JsVal :=
  let field := jsArg args 0
  let val : Option JsVal :=
    match field with
    | .vstr s =>
      if jsStartsWithQ s ∧ jsEndsWithQ s then some (.vstr (sliceEnds s))
      else
        match getFieldValue ctx s with
        | some v => some v
        | none => some (.vstr s)
    | v => some v
  let isBlank :=
    match val with
    | some (.vstr s) => s == ""
    | some (.vnum (.fin q)) => qIsZero q
    | some (.vnum _) => false
    | some .vundef => true
    | none => true
  .vnum (.fin (if isBlank then ⟨1, 1⟩ else qZero))

def lengthBody (args : List JsVal) : JsVal :=
  .vnum (.fin (qOfInt ((jsValToString (jsArg args 0)).length : Int)))

def appendBody (args : List JsVal) : JsVal :=
  .vstr (jsValToString (jsArg args 0) ++ jsValToString (jsArg args 1))

def upperBody (args : List JsVal) : JsVal :=
  .vstr (jsUpper (jsValToString (jsArg args 0)))

def cleanNameArg : JsVal → String
  | .vstr s => stripOuterQuotes s
  | v => jsValToString v

def totalBody (ctx : EvalCtx) (args : List JsVal) : JsVal :=
  let tableName := jsArg args 0
  let columnName := jsArg args 1
  if ¬jsValTruthy tableName ∨ ¬jsValTruthy columnName then .vnum (.fin qZero)
  else
    let cleanT := cleanNameArg tableName
    let cleanC := cleanNameArg columnName
    match lookupT ctx.tables cleanT with
    | none => .vnum (.fin qZero)
    | some table =>
      match table.schema.find? fun c => c.name = cleanC with
      | none => .vnum (.fin qZero)
      | some col =>
        let total := table.rows.foldl
          (fun (acc : JsNum) row =>
            match rowGet row cleanC with
            | none => acc
            | some .vundef => acc
            | some v =>
              if col.type = "INT" ∨ col.type = "REAL" then
                let num := parseFloatOfVal v
                if num.isNaN then acc else numAdd acc num
              else acc)
          (.fin qZero)
        .vnum total

def regexpBody (ctx : EvalCtx) (args : List JsVal) : JsVal :=
  let pattern := jsArg args 0
  let str := jsArg args 1
  if ¬jsValTruthy pattern ∨ ¬jsValTruthy str then .vstr ""
  else
    let cleanPattern := cleanNameArg pattern
    let cleanStr := cleanNameArg str
    match ctx.regexpMatch cleanPattern cleanStr with
    | some m => .vstr m
    | none => .vstr ""

def currRowBody (ctx : EvalCtx) : JsVal :=
  match ctx.row with
  | none => .vnum (.fin qZero)
  | some row =>
    match ctx.currentTable with
    | none => .vnum (.fin qZero)
    | some ct =>
      if ct = "" then .vnum (.fin qZero)
      else
        match lookupT ctx.tables ct with
        | none => .vnum (.fin qZero)
        | some table =>
          .vnum (.fin (qOfInt ((findRowIndex table row).getD 0 : Int)))

def numRowsBody (ctx : EvalCtx) : JsVal :=
  match ctx.currentTable with
  | none => .vnum (.fin qZero)
  | some ct =>
    if ct = "" then .vnum (.fin qZero)
    else
      match lookupT ctx.tables ct with
      | none => .vnum (.fin qZero)
      | some table => .vnum (.fin (qOfInt (table.rows.length : Int)))

/-- The function dictionary of _handleFunctions, in source order. -/
def functionsList : List (String × (EvalCtx → List JsVal → JsVal)) :=
  [("BLANK", fun ctx args => blankBody ctx args),
   ("TODAY", fun ctx _ => .vstr ctx.clock.todayStr),
   ("DAY", fun ctx _ => .vstr ctx.clock.dayStr),
   ("MONTH", fun ctx _ => .vstr ctx.clock.monthStr),
   ("YEAR", fun ctx _ => .vstr ctx.clock.yearStr),
   ("NOW", fun ctx _ => .vstr ctx.clock.nowStr),
   ("LENGTH", fun _ args => lengthBody args),
   ("APPEND", fun _ args => appendBody args),
   ("UPPER", fun _ args => upperBody args),
   ("TOTAL", fun ctx args => totalBody ctx args),
   ("REGEXP", fun ctx args => regexpBody ctx args),
   ("CURR_ROW", fun ctx _ => currRowBody ctx),
   ("NUM_ROWS", fun ctx _ => numRowsBody ctx)]

/-- The names _handleFunctions recognizes. -/
def evalFunctionNames : List String := functionsList.map fun p => p.1

/-! #### Function-call rewriting -/

/-- The argument region of the function-call regex: runs of non-paren
characters and single-depth parenthesized groups, then the closing paren.
Returns the argument text and the rest after the closing paren. -/
def matchFuncArgsAux : Nat → List Char → List Char → Option (List Char × List Char)
  | 0, _, _ => none
  | fuel + 1, acc, cs =>
    let chunk := cs.takeWhile fun c => c ≠ '(' ∧ c ≠ ')'
    let rest := cs.dropWhile fun c => c ≠ '(' ∧ c ≠ ')'
    match rest with
    | ')' :: r => some (acc ++ chunk, r)
    | '(' :: r =>
      let inner := r.takeWhile fun c => c ≠ '(' ∧ c ≠ ')'
      match r.dropWhile (fun c => c ≠ '(' ∧ c ≠ ')') with
      | ')' :: r2 => matchFuncArgsAux fuel (acc ++ chunk ++ '(' :: inner ++ [')']) r2
      | _ => none
    | _ => none

def matchFuncArgs (cs : List Char) : Option (List Char × List Char) :=
  matchFuncArgsAux (cs.length + 1) [] cs

def startsWithCI : List Char → List Char → Bool
  | [], _ => true
  | _, [] => false
  | p :: ps, c :: cs => toLowerC p = toLowerC c && startsWithCI ps cs

/-- The argument splitter of _parseFunctionArgs: commas at depth 0 outside
string literals separate arguments; each piece is trimmed; a trailing
blank piece is dropped. -/
def pfaSplitAux : List Char → Option Char → Bool → Char → Int → List Char →
    List String → List String
  | [], _, _, _, _, cur, res =>
    if jsTrim cur.asString ≠ "" then res ++ [jsTrim cur.asString] else res
  | c :: rest, prev, inString, sChar, depth, cur, res =>
    if (c = '"' ∨ c = sq) ∧ prev ≠ some (Char.ofNat 92) then
      if !inString then pfaSplitAux rest (some c) true c depth (cur ++ [c]) res
      else if c = sChar then pfaSplitAux rest (some c) false ' ' depth (cur ++ [c]) res
      else pfaSplitAux rest (some c) inString sChar depth (cur ++ [c]) res
    else if !inString then
      if c = '(' then pfaSplitAux rest (some c) inString sChar (depth + 1) (cur ++ [c]) res
      else if c = ')' then pfaSplitAux rest (some c) inString sChar (depth - 1) (cur ++ [c]) res
      else if c = ',' ∧ depth = 0 then
        pfaSplitAux rest (some c) inString sChar depth [] (res ++ [jsTrim cur.asString])
      else pfaSplitAux rest (some c) inString sChar depth (cur ++ [c]) res
    else pfaSplitAux rest (some c) inString sChar depth (cur ++ [c]) res

def isIdentString (s : String) : Bool :=
  match s.data with
  | c :: rest => isIdStartC c && rest.all isWordC
  | [] => false

/-- _parseFunctionArgs: split the argument text, then resolve each piece —
a bare identifier is first tried as a field of the current row; otherwise
the piece is evaluated as an expression, and on failure passed through as
text. -/
def parseFunctionArgs (ctx : EvalCtx) (recur : String → Except String String)
    (args : String) : List JsVal :=
  let parts := pfaSplitAux args.data none false ' ' 0 [] []
  parts.map fun arg =>
    let trimmedArg := jsTrim arg
    let tryEval : JsVal :=
      match recur trimmedArg with
      | .ok s => .vstr s
      | .error _ => .vstr trimmedArg
    if isIdentString trimmedArg ∧ ¬jsStartsWithQ trimmedArg then
      match getFieldValue ctx trimmedArg with
      | some v => if v ≠ .vundef then v else tryEval
      | none => tryEval
    else tryEval

/-- One global pass of the call regex for one function name
(case-insensitive, word boundary before the name, optional whitespace
before the parenthesis); replacements are not rescanned. -/
def scanFuncCalls (ctx : EvalCtx) (recur : String → Except String String)
    (fname : List Char) (body : EvalCtx → List JsVal → JsVal) :
    Nat → Option Char → List Char → List Char × Bool
  | 0, _, cs => (cs, false)
  | fuel + 1, prev, cs =>
    match cs with
    | [] => ([], false)
    | c :: rest =>
      let boundaryOk := match prev with
        | none => true
        | some p => !isWordC p
      let step : Option (List Char × List Char) :=
        if boundaryOk && startsWithCI fname cs then
          let afterName := cs.drop fname.length
          match afterName.dropWhile jsIsWs with
          | '(' :: argsStart =>
            match matchFuncArgs argsStart with
            | some (argsChars, after) =>
              let trimmedArgs := jsTrim argsChars.asString
              let argList :=
                if trimmedArgs = "" then [] else parseFunctionArgs ctx recur trimmedArgs
              let result := body ctx argList
              let rep := match result with
                | .vstr s => '"' :: s.data ++ ['"']
                | v => (jsValToString v).data
              some (rep, after)
            | none => none
          | _ => none
        else none
      match step with
      | some (rep, after) =>
        let (tail, _) := scanFuncCalls ctx recur fname body fuel (some ')') after
        (rep ++ tail, true)
      | none =>
        let (tail, found) := scanFuncCalls ctx recur fname body fuel (some c) rest
        (c :: tail, found)

/-- One iteration of the _handleFunctions while loop: try each function
name in order; the first whose rewriting changes the text ends the pass. -/
def funcPass (ctx : EvalCtx) (recur : String → Except String String) :
    List (String × (EvalCtx → List JsVal → JsVal)) → String → String × Bool
  | [], expr => (expr, false)
  | (name, body) :: rest, expr =>
    let (cs2, found) := scanFuncCalls ctx recur name.data body (expr.data.length + 1) none expr.data
    let newExpr := cs2.asString
    if found ∧ newExpr ≠ expr then (newExpr, true)
    else
      let (e2, found2) := funcPass ctx recur rest expr
      (e2, found || found2)

def hfLoop (ctx : EvalCtx) (recur : String → Except String String) :
    Nat → String → String
  | 0, expr => expr
  | n + 1, expr =>
    let (e2, changed) := funcPass ctx recur functionsList expr
    if changed then hfLoop ctx recur n e2 else e2

/-- _handleFunctions (the loop is capped at 100 iterations). -/
def handleFunctions (ctx : EvalCtx) (recur : String → Except String String)
    (expr : String) : String :=
  hfLoop ctx recur 100 expr

/-! #### Parenthesized groups -/

/-- The parenthesis loop of _evaluateExpression: evaluates each top-level
group, splices the result in, resumes scanning after it; unbalanced depth
at the end is a mismatched-parentheses error. -/
def hpGo (recur : String → Except String String) :
    Nat → List Char → Nat → Int → Option Nat → Except String (List Char)
  | 0, _, _, _, _ => .error "fuel exhausted"
  | fuel + 1, cs, i, depth, start =>
    if i < cs.length then
      let c := cs.getD i ' '
      if c = '(' then
        hpGo recur fuel cs (i + 1) (depth + 1) (if depth = 0 then some i else start)
      else if c = ')' then
        let depth2 := depth - 1
        match start with
        | some st =>
          if depth2 = 0 then
            let inner := ((cs.drop (st + 1)).take (i - (st + 1))).asString
            match recur inner with
            | .error e => .error e
            | .ok result =>
              let res := result.data
              hpGo recur fuel (cs.take st ++ res ++ cs.drop (i + 1)) (st + res.length) 0 none
          else hpGo recur fuel cs (i + 1) depth2 start
        | none => hpGo recur fuel cs (i + 1) depth2 start
      else hpGo recur fuel cs (i + 1) depth start
    else
      if depth ≠ 0 then .error "Mismatched parentheses" else .ok cs

def handleParens (recur : String → Except String String) (s : String) :
    Except String String :=
  match hpGo recur (s.data.length + 1) s.data 0 0 none with
  | .error e => .error e
  | .ok cs => .ok cs.asString

/-! #### Field references (_handleFieldReferences) -/

/-- One backward step of the search for the rightmost indexed-reference
opening bracket: left = found answer, right = depth to continue with. -/
def fbsStep (cs : List Char) (i : Nat) (depth : Int) : Option Nat ⊕ Int :=
  let c := cs.getD i ' '
  let window := (cs.take (i + 1)).drop (i + 1 - 16)
  if containsSub "__PROTECTED_".data window then .inr depth
  else if c = ']' then .inr (depth + 1)
  else if c = '[' then
    if depth > 0 then
      if depth = 1 then .inl (some i) else .inr (depth - 1)
    else .inr depth
  else .inr depth

def fbsGo (cs : List Char) : Nat → Int → Option Nat
  | 0, depth =>
    match fbsStep cs 0 depth with
    | .inl r => r
    | .inr _ => none
  | j + 1, depth =>
    match fbsStep cs (j + 1) depth with
    | .inl r => r
    | .inr d2 => fbsGo cs j d2

def findBracketStart (cs : List Char) : Option Nat :=
  match cs.length with
  | 0 => none
  | n + 1 => fbsGo cs n 0

/-- Finds the bracket matching the one at position `start`. -/
def fcbGo : List Char → Nat → Int → Option Nat
  | [], _, _ => none
  | c :: rest, pos, depth =>
    if c = '[' then fcbGo rest (pos + 1) (depth + 1)
    else if c = ']' then
      if depth = 1 then some pos else fcbGo rest (pos + 1) (depth - 1)
    else fcbGo rest (pos + 1) depth

def findCloseBracket (cs : List Char) (start : Nat) : Option Nat :=
  fcbGo (cs.drop (start + 1)) (start + 1) 1

def protectedOf : JsVal → List Char
  | .vstr s => '"' :: s.data ++ ['"']
  | v => (jsValToString v).data

/-- One iteration of the indexed-reference loop.  none models the `break`
branches (no bracket, no field name before it, unmatched brackets); some
gives the new text, the protected values added, the next index, and the
`changed` flag. -/
def indexedOnce (ctx : EvalCtx) (recur : String → Except String String)
    (cs : List Char) (idx : Nat) :
    Option (List Char × List (List Char) × Nat × Bool) :=
  match findBracketStart cs with
  | none => none
  | some bs =>
    let beforeBracket := cs.take bs
    let trimmedEnd := beforeBracket.reverse.dropWhile jsIsWs
    let run := (trimmedEnd.takeWhile isWordC).reverse
    if run = [] ∨ ¬isIdStartC (run.headD ' ') then none
    else
      let fieldStart := bs - run.length
      match findCloseBracket cs bs with
      | none => none
      | some be =>
        let offsetExpr := ((cs.drop (bs + 1)).take (be - (bs + 1))).asString
        let matchEnd := be + 1
        let key := ("__PROTECTED_" ++ natToStr idx ++ "__").data
        let tryResult : Option (Option JsVal) :=
          match recur offsetExpr with
          | .error _ => none
          | .ok offsetResult =>
            let offsetNum := jsParseFloat offsetResult
            if offsetNum.isNaN then none
            else
              some (match getFieldValueWithOffset ctx run.asString (jsRound offsetNum) with
                    | some .vundef => none
                    | some v => some v
                    | none => none)
        match tryResult with
        | some valOpt =>
          let sval := match valOpt with
            | some v => protectedOf v
            | none => ['"', '"']
          some (cs.take fieldStart ++ key ++ cs.drop matchEnd, [sval], idx + 1, true)
        | none =>
          match getFieldValue ctx run.asString with
          | some v =>
            if v ≠ .vundef then
              some (cs.take fieldStart ++ key ++ cs.drop matchEnd, [protectedOf v], idx + 1, true)
            else some (cs, [], idx, false)
          | none => some (cs, [], idx, false)

/-- The indexed-reference while loop (iterations capped at 100). -/
def indexedLoop (ctx : EvalCtx) (recur : String → Except String String) :
    Nat → List Char → Nat → List Char × List (List Char) × Nat
  | 0, cs, idx => (cs, [], idx)
  | n + 1, cs, idx =>
    match indexedOnce ctx recur cs idx with
    | none => (cs, [], idx)
    | some (cs2, adds, idx2, changed) =>
      if changed then
        let (cs3, adds2, idx3) := indexedLoop ctx recur n cs2 idx2
        (cs3, adds ++ adds2, idx3)
      else (cs2, adds, idx2)

/-- The plain field-reference pass: every identifier not followed by an
opening bracket is looked up in the current row and, when found, protected
behind a placeholder (strings re-quoted). -/
def frGo (ctx : EvalCtx) : Nat → Option Char → List Char → Nat →
    List Char × List (List Char) × Nat
  | 0, _, cs, idx => (cs, [], idx)
  | fuel + 1, prev, cs, idx =>
    match cs with
    | [] => ([], [], idx)
    | c :: rest =>
      let boundary := match prev with
        | none => true
        | some p => !isWordC p
      if boundary && isIdStartC c then
        let run := cs.takeWhile isWordC
        let after := cs.dropWhile isWordC
        let lastC := run.getLastD ' '
        let isIndexed := match after.dropWhile jsIsWs with
          | '[' :: _ => true
          | _ => false
        if isIndexed then
          let (tail, st, idx2) := frGo ctx fuel (some lastC) after idx
          (run ++ tail, st, idx2)
        else
          match getFieldValue ctx run.asString with
          | some v =>
            if v ≠ .vundef then
              let key := ("__PROTECTED_" ++ natToStr idx ++ "__").data
              let (tail, st, idx2) := frGo ctx fuel (some lastC) after (idx + 1)
              (key ++ tail, protectedOf v :: st, idx2)
            else
              let (tail, st, idx2) := frGo ctx fuel (some lastC) after idx
              (run ++ tail, st, idx2)
          | none =>
            let (tail, st, idx2) := frGo ctx fuel (some lastC) after idx
            (run ++ tail, st, idx2)
      else
        let (tail, st, idx2) := frGo ctx fuel (some c) rest idx
        (c :: tail, st, idx2)

/-- _handleFieldReferences: protect quoted runs, resolve indexed
references right to left, then resolve plain field references, and restore
every protected value. -/
def handleFieldReferences (ctx : EvalCtx) (recur : String → Except String String)
    (s : String) : String :=
  let (cs1, stored1, idx1) := protectQuotedAux "PROTECTED" (s.data.length + 1) s.data 0
  let (cs2, adds, idx2) := indexedLoop ctx recur 100 cs1 idx1
  let (cs3, adds2, _) := frGo ctx (cs2.length + 1) none cs2 idx2
  (restoreProtected "PROTECTED" (stored1 ++ adds ++ adds2) 0 cs3).asString

/-! #### Unary minus (_handleUnaryMinus) -/

def isUMClass (c : Char) : Bool :=
  jsIsWs c || c = '+' || c = '-' || c = '*' || c = '/' || c = '^' || c = '('

/-- The value alternative of the unary-minus regex: an optionally negative
number or a parenthesized run without nesting. -/
def matchUMValue (cs : List Char) : Option (List Char × List Char) :=
  match matchNumNeg cs with
  | some r => some r
  | none =>
    match cs with
    | '(' :: r =>
      let inner := r.takeWhile fun c => c ≠ ')'
      if inner = [] then none
      else
        match r.dropWhile (fun c => c ≠ ')') with
        | ')' :: r2 => some ('(' :: inner ++ [')'], r2)
        | _ => none
    | _ => none

/-- A match attempt of the unary-minus pattern at one position; at the
string start the empty prefix is tried first (the caret alternative). -/
def tryUnaryAt (isStart : Bool) (cs : List Char) :
    Option (Option Char × Nat × List Char) :=
  let attempt : Option Char → List Char → Nat → Option (Option Char × Nat × List Char) :=
    fun pfx body consumedPfx =>
      let ws1 := body.takeWhile jsIsWs
      match body.dropWhile jsIsWs with
      | '-' :: b2 =>
        let ws2 := b2.takeWhile jsIsWs
        let b3 := b2.dropWhile jsIsWs
        match matchUMValue b3 with
        | some (tok, _) =>
          some (pfx, consumedPfx + ws1.length + 1 + ws2.length + tok.length, tok)
        | none => none
      | _ => none
  let classAttempt : Option (Option Char × Nat × List Char) :=
    match cs with
    | c :: rest => if isUMClass c then attempt (some c) rest 1 else none
    | [] => none
  if isStart then
    match attempt none cs 0 with
    | some r => some r
    | none => classAttempt
  else classAttempt

/-- Leftmost match of the unary-minus pattern. -/
def findUnaryGo : Nat → Nat → List Char → Option (Nat × Option Char × Nat × List Char)
  | 0, _, _ => none
  | fuel + 1, pos, cs =>
    match tryUnaryAt (pos = 0) cs with
    | some (pfx, len, tok) => some (pos, pfx, len, tok)
    | none =>
      match cs with
      | [] => none
      | _ :: rest => findUnaryGo fuel (pos + 1) rest

/-- The _handleUnaryMinus loop (iterations capped at 100): negates the
matched number, or evaluates and negates the parenthesized run; the prefix
character is kept unless it is whitespace. -/
def umLoop (recur : String → Except String String) :
    Nat → String → Except String String
  | 0, s => .ok s
  | n + 1, s =>
    let cs := s.data
    match findUnaryGo (cs.length + 1) 0 cs with
    | none => .ok s
    | some (pos, pfx, len, tok) =>
      let negatedE : Except String JsNum :=
        match tok with
        | '(' :: _ =>
          match recur ((tok.drop 1).dropLast).asString with
          | .error e => .error e
          | .ok innerResult =>
            .ok (numNeg (toNumberVal (.vstr innerResult)))
        | _ =>
          let num := jsParseFloat tok.asString
          if num.isNaN then
            .error ("Cannot apply unary minus to non-numeric value: " ++ tok.asString)
          else .ok (numNeg num)
      match negatedE with
      | .error e => .error e
      | .ok negated =>
        let prefixStr : List Char :=
          match pfx with
          | none => []
          | some c => if jsIsWs c then [] else [c]
        let s2 := (cs.take pos ++ prefixStr ++ (jsNumToString negated).data ++ cs.drop (pos + len)).asString
        if s2 ≠ s then umLoop recur n s2 else .ok s2

def handleUnaryMinus (recur : String → Except String String) (s : String) :
    Except String String :=
  umLoop recur 100 s

/-! #### The evaluator (_evaluateExpression, evaluate) -/

/-- _evaluateExpression: trim; try the conditional split; otherwise run
the rewriting pipeline.  The fuel bounds the recursion depth (substrings
re-evaluated by the conditional, parenthesized groups, offsets, function
arguments); no theorem below comes close to exhausting it. -/
def evalExpr (ctx : EvalCtx) : Nat → String → Except String String
  | 0, _ => .error "fuel exhausted"
  | fuel + 1, expr0 =>
    let recur : String → Except String String := evalExpr ctx fuel
    let expr := jsTrim expr0
    match condSplit expr with
    | some (condition, trueExpr, falseExpr) =>
      match recur condition with
      | .error e => .error e
      | .ok condResult =>
        let numResult := jsParseFloat condResult
        if numResult.truthy then recur trueExpr else recur falseExpr
    | none =>
      let e1 := handleFunctions ctx recur expr
      match handleParens recur e1 with
      | .error e => .error e
      | .ok e2 =>
        let e3 := handleFieldReferences ctx recur e2
        let e4 := handleStringLiterals e3
        let e5 := handleBooleanOps e4
        match handleUnaryMinus recur e5 with
        | .error e => .error e
        | .ok e6 =>
          handleComparisons (handleArithmetic e6)

/-- ExpressionEvaluator.evaluate: rejects an empty expression, evaluates,
and prefixes internal failures with the wrapper message. -/
def evaluate (ctx : EvalCtx) (expression : String) : Except String String :=
  if expression = "" ∨ jsTrim expression = "" then .error "Empty expression"
  else
    match evalExpr ctx 50 (jsTrim expression) with
    | .error e => .error ("Expression evaluation error: " ++ e)
    | .ok v => .ok v

/-! ### Commands -/

/-- The injected host services an evaluator-using command needs. -/
structure Host where
  clock : Clock
  regexpMatch : String → String → Option String

def defaultHost : Host := ⟨fixedClock, fun _ _ => none⟩

def mkCtx (host : Host) (row : Option Row) (reg : Registry)
    (currentTable : Option String) : EvalCtx :=
  ⟨row, reg, currentTable, host.clock, host.regexpMatch⟩

/-- A command's return value: Ok with an optional serialized table
(schema, rows) and an optional new table name, or an error message.  A
thrown exception surfaces to the dispatcher's catch as a failure payload
with the exception message, modelled by the same err constructor. -/
inductive CmdResult where
  | ok (table : Option (List Col × List Row)) (newTableName : Option String)
  | err (msg : String)
  deriving DecidableEq, Repr

def dedupStr (l : List String) : List String :=
  l.foldl (fun acc s => if acc.contains s then acc else acc ++ [s]) []

/-- dropColumns: validates that every listed column exists before touching
the table, then removes the columns from the schema and from every row. -/
def dropColumns (reg : Registry) (tableName : String) (columns : List String) :
    Registry × CmdResult :=
  match lookupT reg tableName with
  | none => (reg, .err ("Table " ++ tableName ++ " not found"))
  | some table =>
    if columns = [] then (reg, .err "At least one column is required")
    else
      let missingColumns := columns.filter fun colName =>
        !(table.schema.any fun col => col.name = colName)
      if missingColumns ≠ [] then
        (reg, .err ("Columns not found: " ++ joinWith ", " missingColumns))
      else
        let columnsToRemoveArray := dedupStr columns
        let schema2 := table.schema.filter fun col => ¬ columns.contains col.name
        let rows2 := table.rows.map fun row =>
          columnsToRemoveArray.foldl (fun r colName => rowDelete r colName) row
        let table2 : Table := ⟨schema2, rows2, table.originalFile⟩
        (updateT reg tableName table2, .ok (some (schema2, rows2)) none)

/-- The keep decision of deleteRow for one row: evaluation failures keep
the row; a string result is unquoted and parsed, keeping the row when it
is not a number; otherwise the row is kept exactly when the number is 0.
(In the model evaluate always returns a string, as the source evaluator
does; the source's non-string branch applies the same zero test.) -/
def deleteRowKeeps (host : Host) (reg : Registry) (tableName : String)
    (expression : String) (row : Row) : Bool :=
  match evaluate (mkCtx host (some row) reg (some tableName)) expression with
  | .error _ => true
  | .ok result =>
    let cleanResult := stripOuterQuotes result
    match jsParseFloat cleanResult with
    | .nan => true
    | .fin q => qIsZero q
    | _ => false

/-- The row loop of deleteRow. -/
def deleteRowLoop (host : Host) (reg : Registry) (tableName : String)
    (expression : String) : List Row → List Row
  | [] => []
  | row :: rest =>
    if deleteRowKeeps host reg tableName expression row then
      row :: deleteRowLoop host reg tableName expression rest
    else deleteRowLoop host reg tableName expression rest

/-- deleteRow (the DELETE_ROWS command): keeps the rows where the
expression evaluates to zero (safe default: errors and non-numeric results
keep the row), leaving the schema alone. -/
def deleteRow (host : Host) (reg : Registry) (tableName : String)
    (expression : String) : Registry × CmdResult :=
  match lookupT reg tableName with
  | none => (reg, .err ("Table " ++ tableName ++ " not found"))
  | some table =>
    let filteredRows := deleteRowLoop host reg tableName expression table.rows
    let table2 : Table := ⟨table.schema, filteredRows, table.originalFile⟩
    (updateT reg tableName table2, .ok (some (table2.schema, table2.rows)) none)

/-- The per-row loop of addColumn: each row's cell is written into the
registry before the next row is evaluated (the evaluator reads the live
tables object); an evaluation failure aborts the loop, leaving the rows
already written and the already-pushed schema column in place. -/
def addColLoop (host : Host) (tableName columnName expression : String) :
    Nat → Registry → Nat → Registry × Option String
  | 0, reg, _ => (reg, none)
  | fuel + 1, reg, i =>
    match lookupT reg tableName with
    | none => (reg, none)
    | some t =>
      match t.rows.get? i with
      | none => (reg, none)
      | some row =>
        match evaluate (mkCtx host (some row) reg (some tableName)) expression with
        | .error e => (reg, some e)
        | .ok value =>
          let row2 := rowSet row columnName (.vstr value)
          let t2 : Table := ⟨t.schema, t.rows.set i row2, t.originalFile⟩
          addColLoop host tableName columnName expression fuel (updateT reg tableName t2) (i + 1)

/-- addColumn (the ADD_COLUMN command): after validation the new column is
pushed onto the schema, THEN the expression is evaluated row by row; an
evaluation failure propagates as an error with the schema and the already
evaluated rows still modified. -/
def addColumn (host : Host) (reg : Registry) (tableName columnName expression columnType : String) :
    Registry × CmdResult :=
  match lookupT reg tableName with
  | none => (reg, .err ("Table " ++ tableName ++ " not found"))
  | some table =>
    if ¬ (columnType = "TEXT" ∨ columnType = "INT" ∨ columnType = "REAL") then
      (reg, .err "Invalid column type. Must be TEXT, INT, or REAL")
    else
      let table1 : Table := ⟨table.schema ++ [⟨columnName, columnType⟩], table.rows, table.originalFile⟩
      let reg1 := updateT reg tableName table1
      match addColLoop host tableName columnName expression (table1.rows.length + 1) reg1 0 with
      | (reg2, some e) => (reg2, .err e)
      | (reg2, none) =>
        match lookupT reg2 tableName with
        | some t2 => (reg2, .ok (some (t2.schema, t2.rows)) none)
        | none => (reg2, .ok none none)

/-! ### Rules engine (loadRules and the add-row endpoint) -/

structure Rule where
  operation : String
  columnName : String
  expression : String
  deriving DecidableEq, Repr

def findCharIdx (c : Char) (cs : List Char) : Option Nat :=
  go cs 0
where
  go : List Char → Nat → Option Nat
    | [], _ => none
    | x :: rest, i => if x = c then some i else go rest (i + 1)

/-- The line parser of loadRules, applied to the rule-file CONTENT (the
file read itself is I/O): OPERATION column_name expression, split on the
first two spaces, blank pieces dropped. -/
def loadRules (content : String) : List Rule :=
  let lines := (splitLines content).filter fun line => jsTrim line ≠ ""
  lines.filterMap fun line =>
    let trimmed := jsTrim line
    match findCharIdx ' ' trimmed.data with
    | none => none
    | some firstSpace =>
      let operation := (trimmed.data.take firstSpace).asString
      let rest := jsTrim (trimmed.data.drop (firstSpace + 1)).asString
      match findCharIdx ' ' rest.data with
      | none => none
      | some secondSpace =>
        let columnName := (rest.data.take secondSpace).asString
        let expression := jsTrim (rest.data.drop (secondSpace + 1)).asString
        if operation ≠ "" ∧ columnName ≠ "" ∧ expression ≠ "" then
          some ⟨operation, columnName, expression⟩
        else none

inductive RowAddResult where
  | ok (table : List Col × List Row)
  | errs (errors : List String)
  | err (msg : String)
  deriving DecidableEq, Repr

def defaultForType (type : String) : JsVal :=
  match type with
  | "INT" => .vnum (.fin qZero)
  | "REAL" => .vnum (.fin qZero)
  | _ => .vstr ""

/-- Number.isInteger(parseFloat(value)). -/
def isIntegerOfVal (v : JsVal) : Bool :=
  match parseFloatOfVal v with
  | .fin q => q.d = 1
  | _ => false

/-- The failure test of a CHECK rule in the source is
`!result || result === 0`; the evaluator's result is always a string, a
string is falsy exactly when empty, and a string is never strictly equal
to the number 0 — so the test reduces to emptiness. -/
def checkRuleFails (result : String) : Bool := result = ""

/-- The add-row endpoint (app.post /api/row/add) after the rule file has
been read: fill defaults, validate and convert by column type, run FIXUP
rules, run every CHECK rule accumulating failing columns, and append the
row only when no error was recorded. -/
def rowAdd (host : Host) (reg : Registry) (tableName : String) (reqRow : Row)
    (rules : List Rule) : Registry × RowAddResult :=
  match lookupT reg tableName with
  | none => (reg, .err ("Table " ++ tableName ++ " not found"))
  | some table =>
    let row1 := table.schema.foldl
      (fun row col =>
        match rowGet row col.name with
        | none => rowSet row col.name (defaultForType col.type)
        | some .vundef => rowSet row col.name (defaultForType col.type)
        | some _ => row)
      reqRow
    let step2 := table.schema.foldl
      (fun (p : Row × List String) col =>
        let (row, errs) := p
        let value := (rowGet row col.name).getD .vundef
        if col.type = "INT" then
          match jsParseInt10 (jsValToString value) with
          | none => (row, errs ++ [col.name])
          | some intVal =>
            if ¬ isIntegerOfVal value then (row, errs ++ [col.name])
            else (rowSet row col.name (.vnum (.fin (qOfInt intVal))), errs)
        else if col.type = "REAL" then
          match parseFloatOfVal value with
          | .nan => (row, errs ++ [col.name])
          | x => (rowSet row col.name (.vnum x), errs)
        else
          (rowSet row col.name (.vstr (if jsValTruthy value then jsValToString value else "")), errs))
      (row1, [])
    let row2 := step2.1
    if step2.2 ≠ [] then (reg, .errs step2.2)
    else
      let fixupStep := (rules.filter fun r => r.operation = "FIXUP").foldl
        (fun (p : Row × List String) rule =>
          let (row, errs) := p
          match evaluate (mkCtx host (some row) reg (some tableName)) rule.expression with
          | .ok v => (rowSet row rule.columnName (.vstr v), errs)
          | .error _ => (row, errs ++ [rule.columnName]))
        (row2, [])
      let row3 := fixupStep.1
      let errors3 := (rules.filter fun r => r.operation = "CHECK").foldl
        (fun errs rule =>
          match evaluate (mkCtx host (some row3) reg (some tableName)) rule.expression with
          | .ok result => if checkRuleFails result then errs ++ [rule.columnName] else errs
          | .error _ => errs ++ [rule.columnName])
        fixupStep.2
      if errors3 ≠ [] then (reg, .errs errors3)
      else
        let table2 : Table := ⟨table.schema, table.rows ++ [row3], table.originalFile⟩
        (updateT reg tableName table2, .ok (table2.schema, table2.rows))

/-! ### The command dispatcher (app.post /api/command) -/

/-- The case labels of the central dispatch switch, one constructor per
case of the source. -/
inductive CommandCase where
  | saveTable | dropColumns | renameTable | deleteRows | collapseTable
  | replaceText | addColumn | joinTable | copyTable | sortTable
  | deleteTable | groupTable | reorderColumns | convertColumn | spliceTables
  deriving DecidableEq, Repr

/-- The switch of app.post /api/command: which handler a command name
selects; none is the default branch. -/
def dispatchCase : String → Option CommandCase
  | "SAVE_TABLE" => some .saveTable
  | "DROP_COLUMNS" => some .dropColumns
  | "RENAME_TABLE" => some .renameTable
  | "DELETE_ROWS" => some .deleteRows
  | "COLLAPSE_TABLE" => some .collapseTable
  | "REPLACE_TEXT" => some .replaceText
  | "ADD_COLUMN" => some .addColumn
  | "JOIN_TABLE" => some .joinTable
  | "COPY_TABLE" => some .copyTable
  | "SORT_TABLE" => some .sortTable
  | "DELETE_TABLE" => some .deleteTable
  | "GROUP_TABLE" => some .groupTable
  | "REORDER_COLUMNS" => some .reorderColumns
  | "CONVERT_COLUMN" => some .convertColumn
  | "SPLICE_TABLES" => some .spliceTables
  | _ => none

/-- The default branch throws `Unknown command: ...`, which the endpoint's
catch turns into a failure response with that message. -/
def apiCommandUnknown (command : String) : Option String :=
  match dispatchCase command with
  | some _ => none
  | none => some ("Unknown command: " ++ command)

/-! ### joinTable with an explicit object heap

joinTable's frame property (the sources are not modified, and the new
table shares no mutable structure with them) is about JavaScript object
identity, so this model makes the mutable objects explicit: column
descriptors and row objects live in heaps addressed by numeric ids, and a
table holds ids.  JSON.parse(JSON.stringify(x)) is a deep copy: it
allocates fresh ids carrying the same values. -/

namespace JoinModel

/-- A table object holding references to its column and row objects. -/
structure HTable where
  schema : List Nat
  rows : List Nat
  originalFile : String
  deriving DecidableEq, Repr

/-- The heap: column objects, row objects, the tables map, and the next
fresh address. -/
structure HState where
  colv : List (Nat × Col)
  rowv : List (Nat × Row)
  tables : List (String × HTable)
  next : Nat
  deriving DecidableEq, Repr

def lookupN {α : Type} : List (Nat × α) → Nat → Option α
  | [], _ => none
  | (k, v) :: r, key => if k = key then some v else lookupN r key

def setN {α : Type} (l : List (Nat × α)) (key : Nat) (v : α) : List (Nat × α) :=
  l.map fun p => if p.1 = key then (p.1, v) else p

def lookupTbl : List (String × HTable) → String → Option HTable
  | [], _ => none
  | (k, v) :: r, key => if k = key then some v else lookupTbl r key

/-- Resolve a column id (a dangling id yields an empty descriptor; well
formed states have none). -/
def colAt (st : HState) (id : Nat) : Col := (lookupN st.colv id).getD ⟨"", ""⟩

def rowAt (st : HState) (id : Nat) : Row := (lookupN st.rowv id).getD []

/-- Allocate copies of column objects (the schema part of the deep copy). -/
def copyCols (st : HState) : List Nat → List Nat × HState
  | [] => ([], st)
  | id :: rest =>
    let fresh := st.next
    let st1 : HState := ⟨st.colv ++ [(fresh, colAt st id)], st.rowv, st.tables, st.next + 1⟩
    let (ids, st2) := copyCols st1 rest
    (fresh :: ids, st2)

/-- Allocate copies of row objects (the rows part of the deep copy). -/
def copyRows (st : HState) : List Nat → List Nat × HState
  | [] => ([], st)
  | id :: rest =>
    let fresh := st.next
    let st1 : HState := ⟨st.colv, st.rowv ++ [(fresh, rowAt st id)], st.tables, st.next + 1⟩
    let (ids, st2) := copyRows st1 rest
    (fresh :: ids, st2)

/-- String(row[joinColumn] || ''). -/
def joinKey (row : Row) (joinColumn : String) : String :=
  match rowGet row joinColumn with
  | some v => if jsValTruthy v then jsValToString v else ""
  | none => ""

/-- The first-match-wins lookup map over the right table's rows, in row
order. -/
def buildLookup (st : HState) (joinColumn : String) : List Nat → List (String × Nat) → List (String × Nat)
  | [], acc => acc
  | id :: rest, acc =>
    let key := joinKey (rowAt st id) joinColumn
    let acc2 := if (acc.find? fun p => p.1 = key).isSome then acc else acc ++ [(key, id)]
    buildLookup st joinColumn rest acc2

def lookupKey : List (String × Nat) → String → Option Nat
  | [], _ => none
  | (k, v) :: r, key => if k = key then some v else lookupKey r key

/-- Push copies of the right-side columns whose names are not already in
the new schema (the schema grows as columns are pushed). -/
def pushNewCols : HState → List Nat → List Nat → List Nat × HState
  | st, _, [] => ([], st)
  | st, curSchema, id :: rest =>
    let c := colAt st id
    if curSchema.any (fun i => (colAt st i).name = c.name) then
      pushNewCols st curSchema rest
    else
      let fresh := st.next
      let st1 : HState := ⟨st.colv ++ [(fresh, c)], st.rowv, st.tables, st.next + 1⟩
      let (ids, st2) := pushNewCols st1 (curSchema ++ [fresh]) rest
      (fresh :: ids, st2)

/-- The join loop: mutate each freshly copied row object, filling the
right-side columns from the matching right row, or with type defaults. -/
def joinRows (joinColumn : String) (newColIds : List Nat)
    (lookup : List (String × Nat)) : HState → List Nat → HState
  | st, [] => st
  | st, rid :: rest =>
    let row := rowAt st rid
    let key := joinKey row joinColumn
    let row2 :=
      match lookupKey lookup key with
      | some mid =>
        newColIds.foldl
          (fun r cid =>
            let cname := (colAt st cid).name
            rowSet r cname ((rowGet (rowAt st mid) cname).getD .vundef))
          row
      | none =>
        newColIds.foldl
          (fun r cid =>
            let c := colAt st cid
            rowSet r c.name
              (if c.type = "TEXT" then .vstr ""
               else .vnum (.fin qZero)))
          row
    let st1 : HState := ⟨st.colv, setN st.rowv rid row2, st.tables, st.next⟩
    joinRows joinColumn newColIds lookup st1 rest

/-- joinTable on the heap model (src/server.js joinTable): validate, build
the lookup map, deep-copy the left table, append fresh copies of the
non-duplicate right columns, fill the copied rows, and store the new
table. -/
def joinTable (st : HState) (tableName tableName1 joinColumn newTableName : String) :
    HState × Except String String :=
  match lookupTbl st.tables tableName with
  | none => (st, .error ("Table " ++ tableName ++ " not found"))
  | some table =>
    match lookupTbl st.tables tableName1 with
    | none => (st, .error ("Table " ++ tableName1 ++ " not found"))
    | some table1 =>
      if newTableName = "" then (st, .error "New table name is required")
      else if (lookupTbl st.tables newTableName).isSome then
        (st, .error ("Table " ++ newTableName ++ " already exists"))
      else if ¬ table.schema.any (fun id => (colAt st id).name = joinColumn) then
        (st, .error ("Column " ++ joinColumn ++ " not found in " ++ tableName))
      else if ¬ table1.schema.any (fun id => (colAt st id).name = joinColumn) then
        (st, .error ("Column " ++ joinColumn ++ " not found in " ++ tableName1))
      else
        match copyCols st table.schema with
        | (schemaIds, st1) =>
        match copyRows st1 table.rows with
        | (rowIds, st2) =>
        match pushNewCols st2 schemaIds
            (table1.schema.filter fun id => (colAt st2 id).name ≠ joinColumn) with
        | (addedIds, st3) =>
          let st4 := joinRows joinColumn
            (table1.schema.filter fun id => (colAt st2 id).name ≠ joinColumn)
            (buildLookup st joinColumn table1.rows []) st3 rowIds
          (⟨st4.colv, st4.rowv,
            st4.tables ++ [(newTableName, ⟨schemaIds ++ addedIds, rowIds, newTableName ++ ".CSV"⟩)],
            st4.next⟩,
           .ok newTableName)

/-- Well-formed heap states: every id a table references is allocated
strictly below the next fresh address. -/
def WFState (st : HState) : Prop :=
  (∀ p ∈ st.colv, p.1 < st.next) ∧ (∀ p ∈ st.rowv, p.1 < st.next) ∧
  (∀ t ∈ st.tables, (∀ id ∈ t.2.schema, id < st.next) ∧ (∀ id ∈ t.2.rows, id < st.next))

end JoinModel

/-! ### Round-trip predicates for the CSV codec -/

/-- The one-fractional-digit rounding toFixed(1) performs (applied to the
magnitude, the sign restored afterwards, ties to the larger value). -/
def roundReal1 (q : Q0) : Q0 :=
  mkQI ((if q.n < 0 then -1 else 1) * (((20 * q.n.natAbs + q.d) / (2 * q.d) : Nat) : Int)) 10

/-- A column name safe for the schema header round trip: a non-empty run
of identifier characters (the data model's column-name lexical class). -/
def identOk (s : String) : Prop :=
  s.data ≠ [] ∧ ∀ c ∈ s.data, isWordC c

/-- A cell value whose serialized field parses back (modulo REAL
rounding): TEXT cells carry no CR / LF, equal their trimmed selves and are
not wrapped in double quotes; INT cells are integral; numerators are
bounded so the fuel of the digit printer is never exhausted. -/
def cellSafe (type : String) (v : JsVal) : Prop :=
  match type with
  | "TEXT" =>
    match v with
    | .vstr s =>
      (∀ c ∈ s.data, c ≠ '\n' ∧ c ≠ '\x0d') ∧ jsTrim s = s ∧
      ¬(jsStartsWithQ s ∧ jsEndsWithQ s)
    | _ => False
  | "INT" =>
    match v with
    | .vnum (.fin q) => q.d = 1 ∧ q.n.natAbs < 10 ^ 30
    | _ => False
  | "REAL" =>
    match v with
    | .vnum (.fin q) => q.n.natAbs < 10 ^ 30
    | _ => False
  | _ => False

/-- A row in schema shape: exactly the schema's columns in schema order,
every cell safe. -/
def rowSafe (schema : List Col) (row : Row) : Prop :=
  row.length = schema.length ∧
  ∀ i, ∀ col ∈ schema.get? i, ∀ cell ∈ row.get? i,
    cell.1 = col.name ∧ cellSafe col.type cell.2

def serializeRowLine (schema : List Col) (row : Row) : String :=
  joinWith "," (schema.map fun col =>
    escapeCSVField (saveFieldValue col.type (rowGet row col.name)))

/-- The hypotheses of the CSV round-trip law: a non-empty schema of
identifier names with the three known types, unique names, schema-shaped
rows with safe cells, and no row serializing to a blank line. -/
def RoundTripSafe (schema : List Col) (rows : List Row) : Prop :=
  schema ≠ [] ∧
  (∀ col ∈ schema, identOk col.name ∧
    (col.type = "TEXT" ∨ col.type = "INT" ∨ col.type = "REAL")) ∧
  (schema.map Col.name).Nodup ∧
  (∀ row ∈ rows, rowSafe schema row) ∧
  (∀ row ∈ rows, jsTrim (serializeRowLine schema row) ≠ "")

/-- What one cell becomes after the round trip: REAL cells are rounded to
one fractional digit, everything else is unchanged. -/
def roundCell (type : String) (v : JsVal) : JsVal :=
  if type = "REAL" then
    match v with
    | .vnum (.fin q) => .vnum (.fin (roundReal1 q))
    | w => w
  else v

/-- What one row becomes after the round trip. -/
def roundTripRow (schema : List Col) (row : Row) : Row :=
  schema.map fun col => (col.name, roundCell col.type ((rowGet row col.name).getD .vundef))

/-- The text of one cell as written by saveTable before CSV escaping. -/
def cellPayload (t : String) (v : JsVal) : String :=
  jsValToString (saveFieldValue t (some v))

/-- A concrete table exercising all three column types for the round-trip
law: a TEXT cell with a comma (forcing the quoted encoding), a REAL cell
1.25 (rounded to 1.3 by toFixed(1)) and a negative INT cell. -/
def c2wSchema : List Col := [⟨"Name", "TEXT"⟩, ⟨"Amount", "REAL"⟩, ⟨"N", "INT"⟩]

def c2wRow : Row :=
  [("Name", .vstr "a,b"), ("Amount", .vnum (.fin ⟨5, 4⟩)), ("N", .vnum (.fin ⟨-5, 1⟩))]

def c2wRows : List Row := [c2wRow]

/-! ### Concrete scenarios used by the claim theorems -/

/-- A plain evaluation context with no row and no tables. -/
def plainCtx : EvalCtx := ⟨none, [], none, fixedClock, fun _ _ => none⟩

/-- The type-mismatch message _compareValues throws on a mixed
TEXT / numeric comparison. -/
def mixedCompareError (l r : String) : String :=
  "Type mismatch: cannot compare " ++
    (if jsStartsWithQ l && jsEndsWithQ l then "TEXT" else "numeric") ++ " with " ++
    (if jsStartsWithQ r && jsEndsWithQ r then "TEXT" else "numeric")

def c1row0 : Row := [("X", .vnum (.fin ⟨0, 1⟩))]

def c1row1 : Row := [("X", .vnum (.fin ⟨1, 1⟩))]

def c1table : Table := ⟨[⟨"X", "INT"⟩], [c1row0, c1row1], "t.CSV"⟩

def c1reg : Registry := [("t", c1table)]

/-- The expression X ? (quote a quote) < 1 : 2 — evaluates to "2" on rows
with X = 0 and raises a type mismatch on rows with X nonzero. -/
def c1expr : String := "X ? " ++ sq.toString ++ "a" ++ sq.toString ++ " < 1 : 2"

def c2schemaW : List Col := [⟨"c", "TEXT"⟩]

def c2rowsW : List Row := [[("c", .vstr " a")]]

def c3row : Row := [("Amount", .vnum (.fin ⟨-5, 1⟩))]

def c3table : Table := ⟨[⟨"Amount", "INT"⟩], [], "sales.CSV"⟩

def c3reg : Registry := [("sales", c3table)]

def c3rulesContent : String := "CHECK Amount Amount > 0"

def c4table : Table :=
  ⟨[⟨"Amount", "REAL"⟩],
   [[("Amount", .vnum (.fin ⟨201, 2⟩))], [("Amount", .vnum (.fin ⟨200, 1⟩))]],
   "sales.CSV"⟩

def c4reg : Registry := [("sales", c4table)]

def c6ctx : EvalCtx := plainCtx

/-- A building block of the amended C6 statement: a string usable as an
untouched atom of a conditional — non-empty, with no parentheses, no
question mark, no colon and no whitespace. -/
def condAtom (s : String) : Prop :=
  s.data ≠ [] ∧ ∀ c ∈ s.data, c ≠ '(' ∧ c ≠ ')' ∧ c ≠ '?' ∧ c ≠ ':' ∧ jsIsWs c = false

def c7ctx : EvalCtx := ⟨some [("X", .vnum (.fin ⟨1, 1⟩))], [], none, fixedClock, fun _ _ => none⟩

def c7exprTT : String := sq.toString ++ "a" ++ sq.toString ++ " < " ++ sq.toString ++ "b" ++ sq.toString

def c7exprTN : String := sq.toString ++ "a" ++ sq.toString ++ " < 2"

def c8row0 : Row := [("Amount", .vnum (.fin ⟨3, 2⟩))]

def c8row1 : Row := [("Amount", .vnum (.fin ⟨5, 2⟩))]

def c8table : Table := ⟨[⟨"Amount", "REAL"⟩], [c8row0, c8row1], "sales.CSV"⟩

def c8ctx : EvalCtx :=
  ⟨some c8row0, [("sales", c8table)], some "sales", fixedClock, fun _ _ => none⟩

def c9ctx : EvalCtx :=
  ⟨some [("bar", .vnum (.fin ⟨1, 1⟩))], [], none, fixedClock, fun _ _ => none⟩

/-- A concrete heap state for the joinTable witness: orders(CustId, Qty)
with rows CustId 1 and 9, customers(CustId, Name) with a row for CustId 1. -/
def c10state : JoinModel.HState :=
  ⟨[(0, ⟨"CustId", "INT"⟩), (1, ⟨"Qty", "INT"⟩), (2, ⟨"CustId", "INT"⟩), (3, ⟨"Name", "TEXT"⟩)],
   [(4, [("CustId", .vnum (.fin ⟨1, 1⟩)), ("Qty", .vnum (.fin ⟨2, 1⟩))]),
    (5, [("CustId", .vnum (.fin ⟨9, 1⟩)), ("Qty", .vnum (.fin ⟨3, 1⟩))]),
    (6, [("CustId", .vnum (.fin ⟨1, 1⟩)), ("Name", .vstr "ann")])],
   [("orders", ⟨[0, 1], [4, 5], "orders.CSV"⟩),
    ("customers", ⟨[2, 3], [6], "customers.CSV"⟩)],
   7⟩

/-! ## Claim theorems -/

/-- C5: the command surface does NOT accept SET_VALUE — the dispatch
switch of app.post /api/command has no SET_VALUE case, so the command
falls to the default branch and fails with Unknown command (the repository
README documents SET_VALUE as a supported command, hence a code bug). -/
theorem c5_set_value_not_dispatched :
    dispatchCase "SET_VALUE" = none ∧
    apiCommandUnknown "SET_VALUE" = some "Unknown command: SET_VALUE" ∧
    dispatchCase "ADD_COLUMN" = some CommandCase.addColumn ∧
    dispatchCase "DELETE_ROWS" = some CommandCase.deleteRows :=
  ⟨rfl, rfl, rfl, rfl⟩

/-- C8: the expression language does NOT provide SUM — the function
dictionary of _handleFunctions has no SUM entry, and evaluating
SUM(Amount, 0, 1) over a two-row table with Amount 1.5 and 2.5 does not
produce the documented REAL sum 4: the argument list is evaluated as a
stray parenthesized group and the text SUM1.5, 0, 1 is returned (the
repository README documents SUM(col, start, finish), hence a code bug). -/
theorem c8_sum_unimplemented :
    evalFunctionNames.contains "SUM" = false ∧
    evaluate c8ctx "SUM(Amount, 0, 1)" = .ok "SUM1.5, 0, 1" ∧
    ("SUM1.5, 0, 1" : String) ≠ "4" :=
  ⟨rfl, rfl, by decide⟩

/-- C3: a CHECK rule whose expression evaluates to zero does NOT reject
the row.  The evaluator returns the STRING "0", the test
`!result || result === 0` is false for it (a non-empty string is truthy
and never strictly equal to the number 0), so with the rule file
`CHECK Amount Amount > 0` the row Amount = -5 is committed even though the
check is violated — contradicting the claim (and spec scenario 4). -/
theorem c3_check_zero_string_commits :
    loadRules c3rulesContent = [⟨"CHECK", "Amount", "Amount > 0"⟩] ∧
    evaluate (mkCtx defaultHost (some c3row) c3reg (some "sales")) "Amount > 0" = .ok "0" ∧
    checkRuleFails "0" = false ∧
    rowAdd defaultHost c3reg "sales" c3row (loadRules c3rulesContent) =
      ([("sales", ⟨[⟨"Amount", "INT"⟩], [c3row], "sales.CSV"⟩)],
       .ok ([⟨"Amount", "INT"⟩], [c3row])) :=
  ⟨rfl, rfl, rfl, rfl⟩

/-- C9 counterexample: an identifier that names neither a column nor a
function does not make evaluation fail — evaluating it succeeds. -/
theorem c9_unknown_identifier_not_an_error :
    evaluate c9ctx "foo" = .ok "foo" := rfl

/-- C9 as amended: an identifier that neither names a column of the
current row nor a function is left in place by every rewriting stage, so
the expression evaluates to its own text as a TEXT value instead of
failing with an unknown-identifier error. -/
theorem c9_unknown_identifier_left_as_text :
    evalFunctionNames.contains "foo" = false ∧
    getFieldValue c9ctx "foo" = none ∧
    evaluate c9ctx "foo" = .ok "foo" ∧
    evaluate c9ctx "foo + 1" = .ok "foo + 1" :=
  ⟨rfl, rfl, rfl, rfl⟩

/-- C6 counterexample: evaluating a ? b ? c : d : e does not agree with
a ? (b ? c : d) : e — at a..e = 1..5 the first gives the text "3 : 4"
(the rightmost colon is paired with the SECOND question mark) while the
second gives "3". -/
theorem c6_conditional_counterexample :
    evaluate c6ctx "1 ? 2 ? 3 : 4 : 5" = .ok "3 : 4" ∧
    evaluate c6ctx "1 ? (2 ? 3 : 4) : 5" = .ok "3" ∧
    ("3 : 4" : String) ≠ "3" :=
  ⟨rfl, rfl, by decide⟩

/-- C1 counterexample: ADD_COLUMN is not atomic.  On a two-row table, an
expression that succeeds on the first row and fails on the second returns
an error, yet the registry keeps the appended schema column and the first
row's evaluated cell. -/
theorem c1_add_column_not_atomic :
    addColumn defaultHost c1reg "t" "Y" c1expr "INT" =
      ([("t", ⟨[⟨"X", "INT"⟩, ⟨"Y", "INT"⟩],
          [[("X", .vnum (.fin ⟨0, 1⟩)), ("Y", .vstr "2")], c1row1], "t.CSV"⟩)],
       .err "Expression evaluation error: Type mismatch: cannot compare TEXT with numeric") ∧
    [("t", (⟨[⟨"X", "INT"⟩, ⟨"Y", "INT"⟩],
        [[("X", .vnum (.fin ⟨0, 1⟩)), ("Y", .vstr "2")], c1row1], "t.CSV"⟩ : Table))] ≠ c1reg :=
  ⟨rfl, by decide⟩

/-- C2 counterexample: a TEXT cell with leading whitespace does not
survive the round trip — the unquoted field is trimmed on parsing, so the
cell " a" comes back as "a". -/
theorem c2_roundtrip_counterexample :
    loadTableContent (saveTableContent c2schemaW c2rowsW) =
      some (c2schemaW, [[("c", .vstr "a")]]) ∧
    (JsVal.vstr "a") ≠ .vstr " a" :=
  ⟨rfl, by decide⟩

/-- C7: comparison type rules.  _compareValues fails with a type mismatch
whenever exactly one operand is a double-quoted (TEXT) token; two TEXT
operands compare lexicographically and two numeric operands numerically,
returning 1 for true and 0 for false; end to end, (quote a quote) less
than (quote b quote) evaluates to the numeral 1 and (quote a quote) less
than 2 fails with the type mismatch. -/
theorem c7_comparison_type_rules :
    (∀ l r op : String,
      (jsStartsWithQ l && jsEndsWithQ l) ≠ (jsStartsWithQ r && jsEndsWithQ r) →
      compareValues l r op = .error (mixedCompareError l r)) ∧
    (∀ s t : String,
      compareValues ("\"" ++ s ++ "\"") ("\"" ++ t ++ "\"") "<" =
        .ok (if strLtL s.data t.data then 1 else 0)) ∧
    (∀ l r : String, (jsStartsWithQ l && jsEndsWithQ l) = false →
      (jsStartsWithQ r && jsEndsWithQ r) = false →
      compareValues l r "<" =
        .ok (if numLt (toNumberVal (.vstr l)) (toNumberVal (.vstr r)) then 1 else 0)) ∧
    evaluate c7ctx c7exprTT = .ok "1" ∧
    evaluate c7ctx c7exprTN =
      .error "Expression evaluation error: Type mismatch: cannot compare TEXT with numeric" := by
  refine ⟨?_, ?_, ?_, rfl, rfl⟩
  · intro l r op h
    have hb : ((jsStartsWithQ l && jsEndsWithQ l) != (jsStartsWithQ r && jsEndsWithQ r)) = true := by
      cases h1 : (jsStartsWithQ l && jsEndsWithQ l) <;>
        cases h2 : (jsStartsWithQ r && jsEndsWithQ r) <;> simp_all
    simp only [compareValues, mixedCompareError]
    rw [if_pos hb]
  · intro s t
    have hback : ∀ l : List Char, l.asString.data = l := fun l => List.toList_asString l
    have hdata : ∀ u : String, ("\"" ++ u ++ "\"" : String).data = '"' :: u.data ++ ['"'] := by
      intro u
      simp [String.data_append]
    have hs1 : ∀ u : String, jsStartsWithQ ("\"" ++ u ++ "\"") = true := by
      intro u
      simp [jsStartsWithQ, hdata]
    have hs2 : ∀ u : String, jsEndsWithQ ("\"" ++ u ++ "\"") = true := by
      intro u
      simp [jsEndsWithQ, hdata]
    have hslice : ∀ u : String, (sliceEnds ("\"" ++ u ++ "\"")).data = u.data := by
      intro u
      simp [sliceEnds, hdata, List.dropLast_concat, hback]
    simp only [compareValues, hs1, hs2, Bool.and_self, bne_self_eq_false, Bool.false_eq_true,
      if_false, if_true, hslice]
  · intro l r hL hR
    simp [compareValues, hL, hR]

/-- C7 witness: the type rules at concrete operands — quote-a-quote
against 2 is a mixed comparison and errors; quote-a-quote against
quote-b-quote compares as TEXT and gives 1; -5 against 0 compares
numerically and gives 1. -/
theorem c7_comparison_type_rules_witness :
    ((jsStartsWithQ "\"a\"" && jsEndsWithQ "\"a\"") ≠ (jsStartsWithQ "2" && jsEndsWithQ "2")) ∧
    compareValues "\"a\"" "2" "<" = .error (mixedCompareError "\"a\"" "2") ∧
    compareValues "\"a\"" "\"b\"" "<" = .ok 1 ∧
    compareValues "-5" "0" "<" = .ok 1 :=
  ⟨by decide,
   c7_comparison_type_rules.1 "\"a\"" "2" "<" (by decide),
   c7_comparison_type_rules.2.1 "a" "b",
   c7_comparison_type_rules.2.2.1 "-5" "0" (by decide) (by decide)⟩

/-- C1 as amended (the provable half): DROP_COLUMNS is atomic — whenever
it returns an error, the registry is exactly as it was. -/
theorem c1_drop_columns_atomic (reg : Registry) (tableName : String)
    (columns : List String) (msg : String)
    (h : (dropColumns reg tableName columns).2 = .err msg) :
    (dropColumns reg tableName columns).1 = reg := by
  unfold dropColumns at h ⊢
  cases hL : lookupT reg tableName with
  | none => simp [hL]
  | some table =>
    simp only [hL] at h ⊢
    by_cases hc : columns = []
    · simp [hc]
    · simp only [if_neg hc] at h ⊢
      by_cases hm :
          columns.filter (fun colName => !(table.schema.any fun col => col.name = colName)) ≠ []
      · simp [hm]
      · simp only [if_neg hm] at h
        cases h

/-- C1 witness: dropping a missing column fails and leaves the registry
unchanged. -/
theorem c1_drop_columns_atomic_witness :
    (dropColumns c1reg "t" ["Z"]).1 = c1reg :=
  c1_drop_columns_atomic c1reg "t" ["Z"] "Columns not found: Z" (by decide)

theorem deleteRowLoop_eq_filter (host : Host) (reg : Registry)
    (tableName expression : String) (rows : List Row) :
    deleteRowLoop host reg tableName expression rows =
      rows.filter (deleteRowKeeps host reg tableName expression) := by
  induction rows with
  | nil => rfl
  | cons r rest ih =>
    by_cases hk : deleteRowKeeps host reg tableName expression r
    · simp [deleteRowLoop, hk, ih, List.filter_cons]
    · simp [deleteRowLoop, hk, ih, List.filter_cons]

/-- C4: DELETE_ROWS filters the rows in place — the result is exactly the
filter of the old rows by the per-row keep decision (so kept rows retain
their relative order) with the schema unchanged; the keep decision is true
on every evaluator error, and on a successful evaluation it is true
exactly when the unquoted result parses as NaN (a non-numeric string) or
as the number 0. -/
theorem c4_delete_rows_is_filter (host : Host) (reg : Registry)
    (tableName expression : String) (table : Table)
    (h : lookupT reg tableName = some table) :
    deleteRow host reg tableName expression =
      (updateT reg tableName
        ⟨table.schema, table.rows.filter (deleteRowKeeps host reg tableName expression),
         table.originalFile⟩,
       .ok (some (table.schema,
         table.rows.filter (deleteRowKeeps host reg tableName expression))) none) ∧
    (∀ row e, evaluate (mkCtx host (some row) reg (some tableName)) expression = .error e →
      deleteRowKeeps host reg tableName expression row = true) ∧
    (∀ row s, evaluate (mkCtx host (some row) reg (some tableName)) expression = .ok s →
      (deleteRowKeeps host reg tableName expression row = true ↔
        jsParseFloat (stripOuterQuotes s) = .nan ∨
        ∃ q, jsParseFloat (stripOuterQuotes s) = .fin q ∧ qIsZero q)) := by
  refine ⟨?_, ?_, ?_⟩
  · simp only [deleteRow, h, deleteRowLoop_eq_filter]
  · intro row e he
    unfold deleteRowKeeps
    rw [he]
  · intro row s hs
    unfold deleteRowKeeps
    rw [hs]
    cases hp : jsParseFloat (stripOuterQuotes s) with
    | nan => simp [hp]
    | fin q =>
      simp only [hp]
      constructor
      · intro hq
        exact Or.inr ⟨q, rfl, hq⟩
      · rintro (hq | ⟨q2, hq2, hz⟩)
        · cases hq
        · cases hq2
          exact hz
    | inf => simp [hp]
    | ninf => simp [hp]

theorem condScan1_chunk (cs : List Char)
    (h : ∀ ch ∈ cs, ch ≠ '(' ∧ ch ≠ ')' ∧ ch ≠ ':') :
    ∀ (rest : List Char) (depth : Int) (acc : List Char),
    condScan1 (cs ++ rest) depth acc = condScan1 rest depth (cs.reverse ++ acc) := by
  induction cs with
  | nil => intro rest depth acc; simp
  | cons x xs ih =>
    intro rest depth acc
    have hx := h x (by simp)
    have hrest : ∀ ch ∈ xs, ch ≠ '(' ∧ ch ≠ ')' ∧ ch ≠ ':' := fun ch hch => h ch (by simp [hch])
    rw [List.cons_append]
    show condScan1 (x :: (xs ++ rest)) depth acc = _
    rw [condScan1, if_neg hx.2.1, if_neg hx.1]
    rw [if_neg (fun hand => hx.2.2 hand.2)]
    rw [ih hrest rest depth (x :: acc)]
    simp [List.append_assoc]

theorem condScan2_chunk (cs : List Char)
    (h : ∀ ch ∈ cs, ch ≠ '(' ∧ ch ≠ ')' ∧ ch ≠ '?') :
    ∀ (rest : List Char) (depth : Int) (accT accF : List Char),
    condScan2 (cs ++ rest) depth accT accF = condScan2 rest depth (cs.reverse ++ accT) accF := by
  induction cs with
  | nil => intro rest depth accT accF; simp
  | cons x xs ih =>
    intro rest depth accT accF
    have hx := h x (by simp)
    have hrest : ∀ ch ∈ xs, ch ≠ '(' ∧ ch ≠ ')' ∧ ch ≠ '?' := fun ch hch => h ch (by simp [hch])
    rw [List.cons_append]
    show condScan2 (x :: (xs ++ rest)) depth accT accF = _
    rw [condScan2, if_neg hx.2.1, if_neg hx.1]
    rw [if_neg (fun hand => hx.2.2 hand.2)]
    rw [ih hrest rest depth (x :: accT) accF]
    simp [List.append_assoc]

theorem jsTrim_of_no_ws (l : List Char) (h : ∀ c ∈ l, jsIsWs c = false) :
    jsTrimL l = l := by
  have hd : ∀ (m : List Char), (∀ c ∈ m, jsIsWs c = false) → m.dropWhile jsIsWs = m := by
    intro m hm
    cases m with
    | nil => rfl
    | cons y ys =>
      rw [List.dropWhile_cons, hm y (by simp)]
      simp
  unfold jsTrimL
  rw [hd l h, hd l.reverse (fun c hc => h c (List.mem_reverse.mp hc)), List.reverse_reverse]

/-- C6 as amended: the conditional scan pairs the RIGHTMOST depth-0 colon
with the rightmost question mark to its left, so for any atoms a…e (no
parentheses, question marks, colons or whitespace) the expression
a?b?c:d:e is split into condition a?b, true part c:d and false part e —
not into the right-associative a ? (b?c:d) : e reading. -/
theorem c6_conditional_rightmost_pair (a b c d e : String)
    (ha : condAtom a) (hb : condAtom b) (hc : condAtom c) (hd : condAtom d)
    (he : condAtom e) :
    condSplit (a ++ "?" ++ b ++ "?" ++ c ++ ":" ++ d ++ ":" ++ e) =
      some (a ++ "?" ++ b, c ++ ":" ++ d, e) := by
  have atomScan1 : ∀ (s : String), condAtom s → ∀ ch ∈ s.data.reverse, ch ≠ '(' ∧ ch ≠ ')' ∧ ch ≠ ':' := by
    intro s hs ch hch
    have := hs.2 ch (List.mem_reverse.mp hch)
    exact ⟨this.1, this.2.1, this.2.2.2.1⟩
  have atomScan2 : ∀ (s : String), condAtom s → ∀ ch ∈ s.data.reverse, ch ≠ '(' ∧ ch ≠ ')' ∧ ch ≠ '?' := by
    intro s hs ch hch
    have := hs.2 ch (List.mem_reverse.mp hch)
    exact ⟨this.1, this.2.1, this.2.2.1⟩
  have atomNoWs : ∀ (s : String), condAtom s → ∀ ch ∈ s.data, jsIsWs ch = false :=
    fun s hs ch hch => (hs.2 ch hch).2.2.2.2
  have hS : (a ++ "?" ++ b ++ "?" ++ c ++ ":" ++ d ++ ":" ++ e).data.reverse
      = e.data.reverse ++ (':' :: (d.data.reverse ++ (':' :: (c.data.reverse ++
          ('?' :: (b.data.reverse ++ ('?' :: a.data.reverse))))))) := by
    simp [String.data_append, List.reverse_append]
  unfold condSplit
  rw [hS]
  rw [condScan1_chunk e.data.reverse (atomScan1 e he)]
  rw [List.reverse_reverse]
  rw [condScan1]
  rw [if_neg (by decide), if_neg (by decide), if_pos (by exact ⟨rfl, rfl⟩)]
  rw [condScan2_chunk d.data.reverse (atomScan2 d hd)]
  rw [List.reverse_reverse]
  rw [condScan2]
  rw [if_neg (by decide), if_neg (by decide), if_neg (by rintro ⟨_, hq⟩; cases hq)]
  rw [condScan2_chunk c.data.reverse (atomScan2 c hc)]
  rw [List.reverse_reverse]
  rw [condScan2]
  rw [if_neg (by decide), if_neg (by decide), if_pos (by exact ⟨rfl, rfl⟩)]
  have trimof : ∀ (l : List Char), (∀ ch ∈ l, jsIsWs ch = false) → jsTrim l.asString = l.asString := by
    intro l hl
    unfold jsTrim
    have hdata : l.asString.data = l := List.toList_asString l
    rw [hdata, jsTrim_of_no_ws l hl]
  simp only [Option.some.injEq, Prod.mk.injEq]
  refine ⟨?_, ?_, ?_⟩
  · have hL : (b.data.reverse ++ '?' :: a.data.reverse).reverse = a.data ++ '?' :: b.data := by
      simp [List.reverse_append]
    rw [hL]
    rw [trimof _ (by
      intro ch hch
      rcases List.mem_append.mp hch with h1 | h1
      · exact atomNoWs a ha ch h1
      · rcases h1 with _ | h1
        · rfl
        · exact atomNoWs b hb ch (by assumption))]
    apply List.asString_eq.mpr
    show _ = (a ++ "?" ++ b).data
    simp [String.data_append]
  · have hL : c.data ++ ':' :: (d.data ++ []) = c.data ++ ':' :: d.data := by
      simp
    rw [hL]
    rw [trimof _ (by
      intro ch hch
      rcases List.mem_append.mp hch with h1 | h1
      · exact atomNoWs c hc ch h1
      · rcases h1 with _ | h1
        · rfl
        · exact atomNoWs d hd ch (by assumption))]
    apply List.asString_eq.mpr
    show _ = (c ++ ":" ++ d).data
    simp [String.data_append]
  · have hL : e.data ++ ([] : List Char) = e.data := by simp
    rw [hL]
    rw [trimof _ (atomNoWs e he)]
    exact String.asString_toList e

/-- C6 witness: the split at the concrete atoms 1…5 — 1?2?3:4:5 becomes
condition 1?2, true part 3:4, false part 5. -/
theorem c6_conditional_rightmost_pair_witness :
    condSplit "1?2?3:4:5" = some ("1?2", "3:4", "5") := by
  have h := c6_conditional_rightmost_pair "1" "2" "3" "4" "5"
    (by constructor <;> decide) (by constructor <;> decide) (by constructor <;> decide)
    (by constructor <;> decide) (by constructor <;> decide)
  simpa using h

/-! ### Digit-character facts -/

theorem digitChar_mem_digits (k : Nat) (hk : k < 10) :
    Nat.digitChar k ∈ "0123456789".data := by
  interval_cases k <;> decide

theorem digit_char_facts : ∀ c ∈ "0123456789".data,
    isDigitC c = true ∧ jsIsWs c = false ∧ c ≠ ',' ∧ c ≠ '"' ∧ c ≠ '\n' ∧
    c ≠ '\x0d' ∧ c ≠ ':' ∧ c ≠ '+' ∧ c ≠ '-' ∧ c ≠ '.' ∧ c ≠ 'I' ∧ c ≠ '$' := by
  decide

theorem digitChar_sub48 (k : Nat) (hk : k < 10) :
    (Nat.digitChar k).toNat - 48 = k := by
  interval_cases k <;> decide

theorem natDigitsAux_mem (f : Nat) : ∀ (n : Nat), ∀ c ∈ natDigitsAux f n, c ∈ "0123456789".data := by
  induction f with
  | zero => intro n c hc; simp [natDigitsAux] at hc
  | succ f ih =>
    intro n c hc
    rw [natDigitsAux] at hc
    by_cases h : n < 10
    · rw [if_pos h] at hc
      simp at hc
      subst hc
      exact digitChar_mem_digits n h
    · rw [if_neg h] at hc
      rcases List.mem_append.mp hc with h1 | h1
      · exact ih _ c h1
      · simp at h1
        subst h1
        exact digitChar_mem_digits _ (Nat.mod_lt _ (by norm_num))

theorem natDigitsAux_ne_nil (f n : Nat) (hf : 0 < f) : natDigitsAux f n ≠ [] := by
  cases f with
  | zero => omega
  | succ f =>
    rw [natDigitsAux]
    by_cases h : n < 10
    · rw [if_pos h]; simp
    · rw [if_neg h]; simp

theorem digitsVal_append (l : List Char) (c : Char) :
    digitsVal (l ++ [c]) = digitsVal l * 10 + (c.toNat - 48) := by
  simp [digitsVal, List.foldl_append]

theorem digitsVal_natDigitsAux (f : Nat) : ∀ (n : Nat), n < 10 ^ f →
    digitsVal (natDigitsAux f n) = n := by
  induction f with
  | zero => intro n h; interval_cases n; rfl
  | succ f ih =>
    intro n h
    rw [natDigitsAux]
    by_cases h10 : n < 10
    · rw [if_pos h10]
      show digitsVal [Nat.digitChar n] = n
      have : digitsVal [Nat.digitChar n] = (Nat.digitChar n).toNat - 48 := by
        simp [digitsVal]
      rw [this, digitChar_sub48 n h10]
    · rw [if_neg h10, digitsVal_append]
      have hdiv : n / 10 < 10 ^ f := by
        rw [Nat.div_lt_iff_lt_mul (by norm_num)]
        calc n < 10 ^ (f + 1) := h
        _ = 10 ^ f * 10 := by rw [pow_succ]
      rw [ih _ hdiv, digitChar_sub48 _ (Nat.mod_lt _ (by norm_num))]
      omega

/-! ### takeWhile / dropWhile helpers -/

theorem takeWhile_all (p : Char → Bool) (l : List Char) (h : ∀ c ∈ l, p c = true) :
    l.takeWhile p = l := by
  induction l with
  | nil => rfl
  | cons x xs ih =>
    rw [List.takeWhile_cons, h x (by simp)]
    simp [ih fun c hc => h c (by simp [hc])]

theorem dropWhile_all (p : Char → Bool) (l : List Char) (h : ∀ c ∈ l, p c = true) :
    l.dropWhile p = [] := by
  induction l with
  | nil => rfl
  | cons x xs ih =>
    rw [List.dropWhile_cons, h x (by simp)]
    simp [ih fun c hc => h c (by simp [hc])]

theorem takeWhile_middle (p : Char → Bool) (l : List Char) (x : Char) (rest : List Char)
    (h : ∀ c ∈ l, p c = true) (hx : p x = false) :
    (l ++ x :: rest).takeWhile p = l := by
  induction l with
  | nil => simp [List.takeWhile_cons, hx]
  | cons y ys ih =>
    rw [List.cons_append, List.takeWhile_cons, h y (by simp)]
    simp [ih fun c hc => h c (by simp [hc])]

theorem dropWhile_middle (p : Char → Bool) (l : List Char) (x : Char) (rest : List Char)
    (h : ∀ c ∈ l, p c = true) (hx : p x = false) :
    (l ++ x :: rest).dropWhile p = x :: rest := by
  induction l with
  | nil => simp [List.dropWhile_cons, hx]
  | cons y ys ih =>
    rw [List.cons_append, List.dropWhile_cons, h y (by simp)]
    simp [ih fun c hc => h c (by simp [hc])]

theorem containsSub_single_false {a : Char} {l : List Char}
    (h : containsSub [a] l = false) : a ∉ l := by
  induction l with
  | nil => simp
  | cons x xs ih =>
    rw [containsSub] at h
    rcases Bool.or_eq_false_iff.mp h with ⟨h1, h2⟩
    rw [startsWithL] at h1
    intro hmem
    rcases List.mem_cons.mp hmem with h3 | h3
    · subst h3
      simp [startsWithL] at h1
    · exact ih h2 h3

/-! ### containsSub and escString facts -/

theorem containsSub_single_of_not_mem {a : Char} {l : List Char}
    (h : a ∉ l) : containsSub [a] l = false := by
  induction l with
  | nil => rfl
  | cons x xs ih =>
    rw [containsSub]
    have hx : a ≠ x := fun hh => h (by simp [hh])
    have : startsWithL [a] (x :: xs) = false := by
      rw [startsWithL]
      simp [hx]
    rw [this, ih fun hh => h (by simp [hh])]
    rfl

theorem escString_eq_self {s : String} (h1 : ',' ∉ s.data) (h2 : '"' ∉ s.data)
    (h3 : '\n' ∉ s.data) (h4 : '\x0d' ∉ s.data) : escString s = s := by
  rw [escString, containsSub_single_of_not_mem h1, containsSub_single_of_not_mem h2,
    containsSub_single_of_not_mem h3, containsSub_single_of_not_mem h4]
  rfl

theorem mem_escQuotes {c : Char} {l : List Char} (h : c ∈ escQuotes l) :
    c ∈ l ∨ c = '"' := by
  rcases List.mem_flatMap.mp h with ⟨x, hx, hc⟩
  by_cases hq : x = '"'
  · subst hq
    simp at hc
    right; exact hc
  · simp [hq] at hc
    left; exact hc ▸ hx

theorem mem_escString {c : Char} {s : String} (h : c ∈ (escString s).data) :
    c ∈ s.data ∨ c = '"' := by
  rw [escString] at h
  split at h
  · rw [String.data_append, String.data_append] at h
    rcases List.mem_append.mp h with h1 | h1
    · rcases List.mem_append.mp h1 with h2 | h2
      · right; simpa using h2
      · exact mem_escQuotes (by simpa using h2)
    · right; simpa using h1
  · left; exact h

theorem mem_joinWith {c : Char} (sep : String) (ls : List String)
    (h : c ∈ (joinWith sep ls).data) : c ∈ sep.data ∨ ∃ s ∈ ls, c ∈ s.data := by
  induction ls with
  | nil => simp [joinWith] at h
  | cons x xs ih =>
    cases xs with
    | nil =>
      rw [joinWith] at h
      right; exact ⟨x, by simp, h⟩
    | cons y ys =>
      rw [show joinWith sep (x :: y :: ys) = x ++ sep ++ joinWith sep (y :: ys) from rfl,
        String.data_append, String.data_append] at h
      rcases List.mem_append.mp h with h1 | h1
      · rcases List.mem_append.mp h1 with h2 | h2
        · right; exact ⟨x, by simp, h2⟩
        · left; exact h2
      · rcases ih h1 with h2 | ⟨s, hs, hc⟩
        · left; exact h2
        · right; exact ⟨s, by simp [hs], hc⟩

/-! ### parseCSVLineAux step and chunk lemmas -/

theorem pclStepQQ (rest cur : List Char) (fs : List String) :
    parseCSVLineAux ('"' :: '"' :: rest) true cur fs =
      parseCSVLineAux rest true (cur ++ ['"']) fs := rfl

theorem pclStepOpen (rest cur : List Char) (fs : List String) :
    parseCSVLineAux ('"' :: rest) false cur fs = parseCSVLineAux rest true cur fs := by
  cases rest with
  | nil => rfl
  | cons r rs =>
    by_cases hr : r = '"'
    · subst hr; rfl
    · simp [parseCSVLineAux, hr]

theorem pclStepClose (r : Char) (rs cur : List Char) (fs : List String) (hr : r ≠ '"') :
    parseCSVLineAux ('"' :: r :: rs) true cur fs = parseCSVLineAux (r :: rs) false cur fs := by
  simp [parseCSVLineAux, hr]

theorem pclStepCloseEnd (cur : List Char) (fs : List String) :
    parseCSVLineAux ['"'] true cur fs = parseCSVLineAux [] false cur fs := rfl

theorem pclStepComma (rest cur : List Char) (fs : List String) :
    parseCSVLineAux (',' :: rest) false cur fs =
      parseCSVLineAux rest false [] (fs ++ [jsTrim cur.asString]) := rfl

theorem pclStepOther (c : Char) (rest cur : List Char) (fs : List String) (inQ : Bool)
    (h1 : c ≠ '"') (h2 : inQ = false → c ≠ ',') :
    parseCSVLineAux (c :: rest) inQ cur fs = parseCSVLineAux rest inQ (cur ++ [c]) fs := by
  cases inQ with
  | false => simp [parseCSVLineAux, h1, h2 rfl]
  | true => simp [parseCSVLineAux, h1]

theorem pclStepEnd (cur : List Char) (fs : List String) (inQ : Bool) :
    parseCSVLineAux [] inQ cur fs = fs ++ [jsTrim cur.asString] := rfl

theorem pclRaw (l : List Char) (h : ∀ c ∈ l, c ≠ '"' ∧ c ≠ ',') :
    ∀ (rest cur : List Char) (fs : List String),
    parseCSVLineAux (l ++ rest) false cur fs = parseCSVLineAux rest false (cur ++ l) fs := by
  induction l with
  | nil => intro rest cur fs; simp
  | cons x xs ih =>
    intro rest cur fs
    have hx := h x (by simp)
    rw [List.cons_append, pclStepOther x _ _ _ _ hx.1 (fun _ => hx.2),
      ih (fun c hc => h c (by simp [hc])) rest (cur ++ [x]) fs]
    simp

theorem pclQuoted (l : List Char) :
    ∀ (rest cur : List Char) (fs : List String), rest.head? ≠ some '"' →
    parseCSVLineAux (escQuotes l ++ '"' :: rest) true cur fs =
      parseCSVLineAux rest false (cur ++ l) fs := by
  induction l with
  | nil =>
    intro rest cur fs hrest
    show parseCSVLineAux ('"' :: rest) true cur fs = _
    cases rest with
    | nil => simp [pclStepCloseEnd]
    | cons r rs =>
      have hr : r ≠ '"' := fun hh => hrest (by simp [hh])
      simp [pclStepClose r rs cur fs hr]
  | cons x xs ih =>
    intro rest cur fs hrest
    by_cases hx : x = '"'
    · subst hx
      have he : escQuotes ('"' :: xs) = '"' :: '"' :: escQuotes xs := by simp [escQuotes]
      rw [he, List.cons_append, List.cons_append, pclStepQQ, ih rest (cur ++ ['"']) fs hrest]
      simp
    · have he : escQuotes (x :: xs) = x :: escQuotes xs := by simp [escQuotes, hx]
      rw [he, List.cons_append, pclStepOther x _ _ _ _ hx (by simp),
        ih rest (cur ++ [x]) fs hrest]
      simp

/-! ### String / trim bridging -/


theorem asString_data (s : String) : s.data.asString = s := by
  cases s
  rfl

theorem jsTrim_eq_self {s : String} (h : ∀ c ∈ s.data, jsIsWs c = false) :
    jsTrim s = s := by
  rw [jsTrim, jsTrim_of_no_ws s.data h, asString_data]

theorem wordC_not_ws {c : Char} (h : isWordC c = true) : jsIsWs c = false := by
  cases hw : jsIsWs c
  · rfl
  · exfalso
    rw [jsIsWs] at hw
    simp only [Bool.or_eq_true, decide_eq_true_eq] at hw
    rcases hw with (((((h1 | h1) | h1) | h1) | h1) | h1) | h1 <;>
      (subst h1; exact absurd h (by decide))

theorem wordC_ne {c : Char} (h : isWordC c = true) :
    c ≠ ':' ∧ c ≠ ',' ∧ c ≠ '"' ∧ c ≠ '\n' ∧ c ≠ '\x0d' := by
  refine ⟨?_, ?_, ?_, ?_, ?_⟩ <;> (intro h1; subst h1; exact absurd h (by decide))

/-! ### splitOnC chunk lemmas -/

theorem splitOnCAux_no_sep (c : Char) (l : List Char) (h : c ∉ l) :
    ∀ cur, splitOnCAux c l cur = [(cur ++ l).asString] := by
  induction l with
  | nil => intro cur; simp [splitOnCAux]
  | cons x xs ih =>
    intro cur
    have hx : x ≠ c := fun hh => h (by simp [hh])
    rw [splitOnCAux, if_neg hx, ih (fun hh => h (by simp [hh])) (cur ++ [x])]
    simp

theorem splitOnCAux_sep (c : Char) (l : List Char) (h : c ∉ l) (rest : List Char) :
    ∀ cur, splitOnCAux c (l ++ c :: rest) cur = (cur ++ l).asString :: splitOnCAux c rest [] := by
  induction l with
  | nil =>
    intro cur
    rw [List.nil_append, splitOnCAux, if_pos rfl]
    simp
  | cons x xs ih =>
    intro cur
    have hx : x ≠ c := fun hh => h (by simp [hh])
    rw [List.cons_append, splitOnCAux, if_neg hx, ih (fun hh => h (by simp [hh])) (cur ++ [x])]
    simp

/-! ### splitLines chunk lemmas -/

theorem splitLinesAux_no_nl (l : List Char) (h : ∀ c ∈ l, c ≠ '\n' ∧ c ≠ '\x0d') :
    ∀ acc, splitLinesAux l acc = [(acc ++ l).asString] := by
  induction l with
  | nil => intro acc; simp [splitLinesAux]
  | cons x xs ih =>
    intro acc
    have hx := h x (by simp)
    have : splitLinesAux (x :: xs) acc = splitLinesAux xs (acc ++ [x]) := by
      simp [splitLinesAux, hx.1, hx.2]
    rw [this, ih (fun c hc => h c (by simp [hc])) (acc ++ [x])]
    simp

theorem splitLinesAux_nl (l : List Char) (h : ∀ c ∈ l, c ≠ '\n' ∧ c ≠ '\x0d')
    (rest : List Char) :
    ∀ acc, splitLinesAux (l ++ '\n' :: rest) acc = (acc ++ l).asString :: splitLinesAux rest [] := by
  induction l with
  | nil => intro acc; simp [splitLinesAux]
  | cons x xs ih =>
    intro acc
    have hx := h x (by simp)
    rw [List.cons_append]
    have : splitLinesAux (x :: (xs ++ '\n' :: rest)) acc =
        splitLinesAux (xs ++ '\n' :: rest) (acc ++ [x]) := by
      simp [splitLinesAux, hx.1, hx.2]
    rw [this, ih (fun c hc => h c (by simp [hc])) (acc ++ [x])]
    simp

theorem splitLines_joinWith (ls : List String)
    (h : ∀ s ∈ ls, ∀ c ∈ s.data, c ≠ '\n' ∧ c ≠ '\x0d') (hls : ls ≠ []) :
    splitLines (joinWith "\n" ls) = ls := by
  induction ls with
  | nil => cases hls rfl
  | cons x xs ih =>
    cases xs with
    | nil =>
      show splitLinesAux x.data [] = [x]
      rw [splitLinesAux_no_nl x.data (h x (by simp)) []]
      simp [asString_data]
    | cons y ys =>
      rw [show joinWith "\n" (x :: y :: ys) = x ++ "\n" ++ joinWith "\n" (y :: ys) from rfl]
      show splitLinesAux (x ++ "\n" ++ joinWith "\n" (y :: ys)).data [] = _
      rw [String.data_append, String.data_append,
        show ("\n" : String).data = ['\n'] from rfl, List.append_assoc, List.singleton_append,
        splitLinesAux_nl x.data (h x (by simp)) _ []]
      rw [List.nil_append, asString_data]
      have := ih (fun s hs => h s (by simp [hs])) (by simp)
      rw [show splitLines (joinWith "\n" (y :: ys)) =
        splitLinesAux (joinWith "\n" (y :: ys)).data [] from rfl] at this
      rw [this]

/-! ### Field-list scan lemmas -/

theorem scanFieldCore (s : String) (rest : List Char) (hrest : rest.head? ≠ some '"')
    (fs : List String) :
    parseCSVLineAux ((escString s).data ++ rest) false [] fs =
      parseCSVLineAux rest false s.data fs := by
  rw [escString]
  split
  · next hq =>
    rw [String.data_append, String.data_append,
      show ("\"" : String).data = ['"'] from rfl, List.append_assoc, List.singleton_append,
      show ((escQuotes s.data).asString).data = escQuotes s.data from rfl]
    rw [List.singleton_append, List.cons_append, pclStepOpen,
      pclQuoted s.data rest [] fs hrest]
    rfl
  · next hq =>
    rw [Bool.not_eq_true, Bool.or_eq_false_iff, Bool.or_eq_false_iff,
      Bool.or_eq_false_iff] at hq
    obtain ⟨⟨⟨hc1, hc2⟩, _⟩, _⟩ := hq
    have hmem : ∀ c ∈ s.data, c ≠ '"' ∧ c ≠ ',' :=
      fun c hc => ⟨fun hh => containsSub_single_false hc2 (hh ▸ hc),
        fun hh => containsSub_single_false hc1 (hh ▸ hc)⟩
    rw [pclRaw s.data hmem rest [] fs]
    rfl

theorem scanFields (ss : List String) (h : ∀ s ∈ ss, jsTrim s = s) :
    ∀ fs, ss ≠ [] →
    parseCSVLineAux (joinWith "," (ss.map escString)).data false [] fs = fs ++ ss := by
  induction ss with
  | nil => intro fs h0; cases h0 rfl
  | cons x xs ih =>
    intro fs _
    cases xs with
    | nil =>
      show parseCSVLineAux (escString x).data false [] fs = fs ++ [x]
      have hc := scanFieldCore x [] (by simp) fs
      rw [List.append_nil] at hc
      rw [hc, pclStepEnd, asString_data, h x (by simp)]
    | cons y ys =>
      rw [show (x :: y :: ys).map escString =
        escString x :: (y :: ys).map escString from rfl,
        show joinWith "," (escString x :: (y :: ys).map escString) =
          escString x ++ "," ++ joinWith "," ((y :: ys).map escString) from rfl,
        String.data_append, String.data_append,
        show ("," : String).data = [','] from rfl, List.append_assoc, List.singleton_append]
      rw [scanFieldCore x _ (by simp) fs, pclStepComma, asString_data, h x (by simp)]
      rw [ih (fun s hs => h s (by simp [hs])) (fs ++ [x]) (by simp)]
      simp

/-! ### Schema line round trip -/

theorem schemaField_roundtrip (col : Col) (hn : identOk col.name)
    (ht : col.type = "TEXT" ∨ col.type = "INT" ∨ col.type = "REAL") :
    (fun c =>
      let parts := splitOnC ':' c
      let name := jsTrim (parts.headD "")
      let type := match parts with
        | _ :: t :: _ => jsUpper (jsTrim t)
        | _ => "TEXT"
      (⟨name, type⟩ : Col)) (col.name ++ ":" ++ col.type) = col := by
  obtain ⟨hne, hword⟩ := hn
  have hcolon : ':' ∉ col.name.data := fun hmem => (wordC_ne (hword _ hmem)).1 rfl
  have hcolon2 : ':' ∉ col.type.data := by
    rcases ht with h | h | h <;> rw [h] <;> decide
  have hparts : splitOnC ':' (col.name ++ ":" ++ col.type) = [col.name, col.type] := by
    rw [splitOnC, String.data_append, String.data_append,
      show (":" : String).data = [':'] from rfl, List.append_assoc, List.singleton_append,
      splitOnCAux_sep ':' col.name.data hcolon _ [],
      splitOnCAux_no_sep ':' col.type.data hcolon2 []]
    simp [asString_data]
  simp only [hparts]
  show (⟨jsTrim col.name, jsUpper (jsTrim col.type)⟩ : Col) = col
  rw [jsTrim_eq_self (fun c hc => wordC_not_ws (hword c hc))]
  have : jsUpper (jsTrim col.type) = col.type := by
    rcases ht with h | h | h <;> rw [h] <;> decide
  rw [this]

/-! ### Integer string round trip -/

theorem asString_data_list (l : List Char) : l.asString.data = l := rfl

theorem natToStr_ne_nil (n : Nat) : (natToStr n).data ≠ [] := by
  show (natDigitsAux 40 n).asString.data ≠ []
  rw [asString_data_list]
  exact natDigitsAux_ne_nil 40 n (by norm_num)

theorem intToStr_data_neg (z : Int) (hz : z < 0) :
    (intToStr z).data = '-' :: natDigitsAux 40 z.natAbs := by
  rw [intToStr, if_pos hz, String.data_append]
  rfl

theorem intToStr_data_nonneg (z : Int) (hz : ¬ z < 0) :
    (intToStr z).data = natDigitsAux 40 z.natAbs := by
  rw [intToStr, if_neg hz, String.data_append]
  rfl

theorem dropWhile_ws_cons (c : Char) (l : List Char) (hc : jsIsWs c = false) :
    (c :: l).dropWhile jsIsWs = c :: l := by
  rw [List.dropWhile_cons, hc]
  simp

theorem signMatch_digit (c : Char) (l : List Char) (hc : c ∈ "0123456789".data) :
    (match c :: l with
      | '+' :: t => ((1 : Int), t)
      | '-' :: t => ((-1 : Int), t)
      | t => ((1 : Int), t)) = ((1 : Int), c :: l) := by
  fin_cases hc <;> rfl

theorem jsParseInt10_intToStr (z : Int) (hz : z.natAbs < 10 ^ 40) :
    jsParseInt10 (intToStr z) = some z := by
  have hmem : ∀ c ∈ natDigitsAux 40 z.natAbs, c ∈ "0123456789".data :=
    natDigitsAux_mem 40 z.natAbs
  have hne : natDigitsAux 40 z.natAbs ≠ [] := natDigitsAux_ne_nil 40 _ (by norm_num)
  have hval : digitsVal (natDigitsAux 40 z.natAbs) = z.natAbs := digitsVal_natDigitsAux 40 _ hz
  have htake : (natDigitsAux 40 z.natAbs).takeWhile isDigitC = natDigitsAux 40 z.natAbs :=
    takeWhile_all _ _ (fun c hc => (digit_char_facts c (hmem c hc)).1)
  by_cases hneg : z < 0
  · rw [jsParseInt10, intToStr_data_neg z hneg,
      dropWhile_ws_cons _ _ (by decide)]
    simp only [htake, hval]
    rw [if_neg hne]
    exact congrArg some (by omega)
  · rw [jsParseInt10, intToStr_data_nonneg z hneg]
    cases hD : natDigitsAux 40 z.natAbs with
    | nil => exact absurd hD hne
    | cons d0 D =>
      rw [hD] at htake hval hne
      have hdmem : d0 ∈ "0123456789".data := hmem d0 (by rw [hD]; simp)
      rw [dropWhile_ws_cons _ _ (digit_char_facts d0 hdmem).2.1]
      rw [signMatch_digit d0 D hdmem]
      simp only [htake, hval]
      rw [if_neg hne]
      exact congrArg some (by omega)

/-! ### mkQ0 normalization -/

theorem mkQ0_zero_den (x : Int) : mkQ0 x 0 = ⟨0, 1⟩ := by
  rw [mkQ0, if_pos rfl]

theorem mkQ0_eq (x : Int) (d : Nat) (hd : d ≠ 0) :
    mkQ0 x d = ⟨x / (Nat.gcd x.natAbs d : Int), d / Nat.gcd x.natAbs d⟩ := by
  rw [mkQ0, if_neg hd]

theorem natAbs_div_of_dvd (x : Int) (g : Nat) (hg : 0 < g) (hdvd : (g : Int) ∣ x) :
    (x / (g : Int)).natAbs = x.natAbs / g := by
  obtain ⟨k, hk⟩ := hdvd
  subst hk
  rw [Int.mul_ediv_cancel_left _ (show (g : Int) ≠ 0 by exact_mod_cast hg.ne'),
    Int.natAbs_mul, Int.natAbs_ofNat, Nat.mul_div_cancel_left _ hg]

theorem mkQ0_norm (x : Int) (d : Nat) : mkQ0 (mkQ0 x d).n (mkQ0 x d).d = mkQ0 x d := by
  by_cases hd : d = 0
  · subst hd
    rw [mkQ0_zero_den]
    show mkQ0 0 1 = _
    rw [mkQ0_eq 0 1 (by norm_num)]
    decide
  · have hg0 : 0 < Nat.gcd x.natAbs d := Nat.gcd_pos_of_pos_right _ (Nat.pos_of_ne_zero hd)
    have hgd : Nat.gcd x.natAbs d ∣ d := Nat.gcd_dvd_right _ _
    have hd1 : d / Nat.gcd x.natAbs d ≠ 0 :=
      Nat.ne_of_gt (Nat.div_pos (Nat.le_of_dvd (Nat.pos_of_ne_zero hd) hgd) hg0)
    have hdvd : (Nat.gcd x.natAbs d : Int) ∣ x :=
      Int.dvd_natAbs.mp (Int.natCast_dvd_natCast.mpr (Nat.gcd_dvd_left _ _))
    have habs : (x / (Nat.gcd x.natAbs d : Int)).natAbs = x.natAbs / Nat.gcd x.natAbs d :=
      natAbs_div_of_dvd x _ hg0 hdvd
    rw [mkQ0_eq x d hd]
    show mkQ0 (x / (Nat.gcd x.natAbs d : Int)) (d / Nat.gcd x.natAbs d) = _
    rw [mkQ0_eq _ _ hd1, habs, Nat.coprime_div_gcd_div_gcd hg0]
    simp [mkQ0_eq x d hd]

/-! ### toFixed(1) round trip -/

theorem toFixed_nn_lt (a d : Nat) (ha : a < 10 ^ 30) :
    (20 * a + d) / (2 * d) < 10 ^ 31 := by
  rcases Nat.eq_zero_or_pos d with hd | hd
  · subst hd
    norm_num
  · rw [Nat.div_lt_iff_lt_mul (by positivity)]
    have h1 : 20 * a ≤ 20 * a * d := Nat.le_mul_of_pos_right _ hd
    have h2 : (20 * a + 1) * d < (2 * 10 ^ 31) * d :=
      (Nat.mul_lt_mul_right hd).mpr (by omega)
    have h3 : (20 * a + 1) * d = 20 * a * d + d := by ring
    calc 20 * a + d ≤ 20 * a * d + d := Nat.add_le_add_right h1 d
      _ = (20 * a + 1) * d := h3.symm
      _ < 2 * 10 ^ 31 * d := h2
      _ = 10 ^ 31 * (2 * d) := by ring

theorem charToString_data (c : Char) : (Char.toString c).data = [c] := rfl

theorem qToFixed1_data (q : Q0) :
    (qToFixed1 q).data = (if q.n < 0 then ['-'] else []) ++
      (natDigitsAux 40 ((20 * q.n.natAbs + q.d) / (2 * q.d) / 10) ++
        '.' :: [Nat.digitChar ((20 * q.n.natAbs + q.d) / (2 * q.d) % 10)]) := by
  rw [qToFixed1]
  by_cases hneg : q.n < 0
  · rw [if_pos hneg, if_pos hneg]
    rw [String.data_append, String.data_append, String.data_append]
    simp [natToStr, charToString_data, asString_data_list]
  · rw [if_neg hneg, if_neg hneg]
    rw [String.data_append, String.data_append, String.data_append]
    simp [natToStr, charToString_data, asString_data_list]

/-! ### parseFloat on toFixed output -/

theorem digitsVal_singleton (c : Char) : digitsVal [c] = c.toNat - 48 := by
  simp [digitsVal]

theorem parseFloatExp_nil : parseFloatExp [] = 0 := rfl

theorem startsWithL_cons_ne (p c : Char) (ps cs : List Char) (h : p ≠ c) :
    startsWithL (p :: ps) (c :: cs) = false := by
  rw [startsWithL]
  simp [h]

theorem qMul_mkQ0_one (x : Int) (d : Nat) : qMul (mkQ0 x d) ⟨1, 1⟩ = mkQ0 x d := by
  rw [qMul]
  simp only [mul_one]
  exact mkQ0_norm x d

theorem floatSign_neg (r : List Char) :
    (match '-' :: r with
      | '+' :: t => parseFloatBody 1 t
      | '-' :: t => parseFloatBody (-1) t
      | t => parseFloatBody 1 t) = parseFloatBody (-1) r := rfl

theorem floatSign_digit (c : Char) (l : List Char) (hc : c ∈ "0123456789".data) :
    (match c :: l with
      | '+' :: t => parseFloatBody 1 t
      | '-' :: t => parseFloatBody (-1) t
      | t => parseFloatBody 1 t) = parseFloatBody 1 (c :: l) := by
  fin_cases hc <;> rfl

theorem parseFloatBody_digits_dot (sgn : Int) (D : List Char) (d1 : Char)
    (hD : ∀ c ∈ D, c ∈ "0123456789".data) (hDne : D ≠ [])
    (hd1 : d1 ∈ "0123456789".data) :
    parseFloatBody sgn (D ++ '.' :: [d1]) =
      .fin (mkQ0 (sgn * ((digitsVal D * 10 + (d1.toNat - 48) : Nat) : Int)) 10) := by
  have hdigD : ∀ c ∈ D, isDigitC c = true := fun c hc => (digit_char_facts c (hD c hc)).1
  have htake := takeWhile_middle isDigitC D '.' [d1] hdigD (by decide)
  have hdrop := dropWhile_middle isDigitC D '.' [d1] hdigD (by decide)
  obtain ⟨c0, D2, rfl⟩ : ∃ c0 D2, D = c0 :: D2 := by
    cases D with
    | nil => exact absurd rfl hDne
    | cons a b => exact ⟨a, b, rfl⟩
  have hc0I : c0 ≠ 'I' := (digit_char_facts c0 (hD c0 (by simp))).2.2.2.2.2.2.2.2.2.2.1
  have hI : startsWithL "Infinity".data ((c0 :: D2) ++ '.' :: [d1]) = false := by
    rw [List.cons_append, show "Infinity".data = 'I' :: "nfinity".data from rfl]
    exact startsWithL_cons_ne _ _ _ _ (Ne.symm hc0I)
  rw [parseFloatBody, if_neg (by rw [hI]; exact Bool.false_ne_true)]
  simp only [htake, hdrop]
  have hfs : List.takeWhile isDigitC [d1] = [d1] :=
    takeWhile_all _ _ (fun c hc => by
      rw [List.mem_singleton] at hc
      rw [hc]
      exact (digit_char_facts d1 hd1).1)
  have hr2 : List.dropWhile isDigitC [d1] = [] :=
    dropWhile_all _ _ (fun c hc => by
      rw [List.mem_singleton] at hc
      rw [hc]
      exact (digit_char_facts d1 hd1).1)
  simp only [hfs, hr2]
  rw [if_neg (by simp)]
  rw [parseFloatExp_nil, if_pos (le_refl (0 : Int))]
  rw [show ((0 : Int)).toNat = 0 from rfl, pow_zero]
  rw [qMul_mkQ0_one, List.length_singleton, pow_one, digitsVal_singleton]

theorem jsParseFloat_qToFixed1 (q : Q0) (hq : q.n.natAbs < 10 ^ 30) :
    jsParseFloat (qToFixed1 q) = .fin (roundReal1 q) := by
  rw [jsParseFloat, qToFixed1_data]
  set nn := (20 * q.n.natAbs + q.d) / (2 * q.d) with hnn
  have hlt40 : nn / 10 < 10 ^ 40 :=
    lt_of_le_of_lt (Nat.div_le_self _ _) (lt_trans (toFixed_nn_lt _ _ hq) (by norm_num))
  have hmemD : ∀ c ∈ natDigitsAux 40 (nn / 10), c ∈ "0123456789".data := natDigitsAux_mem 40 _
  have hneD : natDigitsAux 40 (nn / 10) ≠ [] := natDigitsAux_ne_nil 40 _ (by norm_num)
  have hvalD : digitsVal (natDigitsAux 40 (nn / 10)) = nn / 10 := digitsVal_natDigitsAux 40 _ hlt40
  have hd1 : Nat.digitChar (nn % 10) ∈ "0123456789".data :=
    digitChar_mem_digits _ (Nat.mod_lt _ (by norm_num))
  by_cases hneg : q.n < 0
  · rw [if_pos hneg, List.singleton_append, dropWhile_ws_cons _ _ (by decide)]
    rw [floatSign_neg, parseFloatBody_digits_dot (-1) _ _ hmemD hneD hd1]
    rw [hvalD, digitChar_sub48 (nn % 10) (Nat.mod_lt _ (by norm_num))]
    rw [show nn / 10 * 10 + nn % 10 = nn from by omega]
    rw [roundReal1, ← hnn, if_pos hneg, mkQI, if_neg (by norm_num)]
    rw [show ((10 : Int)).toNat = 10 from rfl]
  · rw [if_neg hneg, List.nil_append]
    cases hD0 : natDigitsAux 40 (nn / 10) with
    | nil => exact absurd hD0 hneD
    | cons d0 D2 =>
      have hd0m : d0 ∈ "0123456789".data := hmemD d0 (by rw [hD0]; simp)
      rw [List.cons_append, dropWhile_ws_cons _ _ (digit_char_facts d0 hd0m).2.1]
      rw [floatSign_digit d0 _ hd0m, ← List.cons_append, ← hD0,
        parseFloatBody_digits_dot 1 _ _ hmemD hneD hd1]
      rw [hvalD, digitChar_sub48 (nn % 10) (Nat.mod_lt _ (by norm_num))]
      rw [show nn / 10 * 10 + nn % 10 = nn from by omega]
      rw [roundReal1, ← hnn, if_neg hneg, mkQI, if_neg (by norm_num)]
      rw [show ((10 : Int)).toNat = 10 from rfl]

/-! ### parseValue / saveFieldValue / escapeCSVField reductions -/

theorem parseValue_text (s : String) : parseValue s "TEXT" = .vstr s := by
  rw [parseValue]
  by_cases h : s = ""
  · rw [if_pos h, h]
  · rw [if_neg h]

theorem intToStr_ne_empty (z : Int) : intToStr z ≠ "" := by
  intro hh
  have hd := congrArg String.data hh
  by_cases hneg : z < 0
  · rw [intToStr_data_neg z hneg] at hd
    simp at hd
  · rw [intToStr_data_nonneg z hneg] at hd
    rw [show ("" : String).data = [] from rfl] at hd
    exact natDigitsAux_ne_nil 40 _ (by norm_num) hd

theorem parseValue_intToStr (z : Int) (hz : z.natAbs < 10 ^ 40) :
    parseValue (intToStr z) "INT" = .vnum (.fin (qOfInt z)) := by
  rw [parseValue, if_neg (intToStr_ne_empty z), jsParseInt10_intToStr z hz]

theorem cleanRealValue_eq_self {s : String} (h : ∀ c ∈ s.data, c ≠ ',' ∧ c ≠ '$') :
    cleanRealValue s = s := by
  rw [cleanRealValue, List.filter_eq_self.mpr, asString_data]
  intro c hc
  simp [(h c hc).1, (h c hc).2]

theorem qToFixed1_chars (q : Q0) : ∀ c ∈ (qToFixed1 q).data,
    c = '-' ∨ c = '.' ∨ c ∈ "0123456789".data := by
  intro c hc
  rw [qToFixed1_data] at hc
  rcases List.mem_append.mp hc with h1 | h1
  · by_cases hneg : q.n < 0
    · rw [if_pos hneg] at h1
      simp at h1
      left; exact h1
    · rw [if_neg hneg] at h1
      simp at h1
  · rcases List.mem_append.mp h1 with h2 | h2
    · right; right; exact natDigitsAux_mem 40 _ c h2
    · simp at h2
      rcases h2 with h2 | h2
      · right; left; exact h2
      · right; right; rw [h2]; exact digitChar_mem_digits _ (Nat.mod_lt _ (by norm_num))

theorem qToFixed1_char_facts (q : Q0) : ∀ c ∈ (qToFixed1 q).data,
    jsIsWs c = false ∧ c ≠ ',' ∧ c ≠ '"' ∧ c ≠ '\n' ∧ c ≠ '\x0d' ∧ c ≠ '$' := by
  intro c hc
  rcases qToFixed1_chars q c hc with h | h | h
  · subst h; refine ⟨by decide, by decide, by decide, by decide, by decide, by decide⟩
  · subst h; refine ⟨by decide, by decide, by decide, by decide, by decide, by decide⟩
  · have hf := digit_char_facts c h
    exact ⟨hf.2.1, hf.2.2.1, hf.2.2.2.1, hf.2.2.2.2.1, hf.2.2.2.2.2.1,
      hf.2.2.2.2.2.2.2.2.2.2.2⟩

theorem intToStr_chars (z : Int) : ∀ c ∈ (intToStr z).data,
    c = '-' ∨ c ∈ "0123456789".data := by
  intro c hc
  by_cases hneg : z < 0
  · rw [intToStr_data_neg z hneg] at hc
    rcases List.mem_cons.mp hc with h1 | h1
    · left; exact h1
    · right; exact natDigitsAux_mem 40 _ c h1
  · rw [intToStr_data_nonneg z hneg] at hc
    right; exact natDigitsAux_mem 40 _ c hc

theorem intToStr_char_facts (z : Int) : ∀ c ∈ (intToStr z).data,
    jsIsWs c = false ∧ c ≠ ',' ∧ c ≠ '"' ∧ c ≠ '\n' ∧ c ≠ '\x0d' := by
  intro c hc
  rcases intToStr_chars z c hc with h | h
  · subst h; refine ⟨by decide, by decide, by decide, by decide, by decide⟩
  · have hf := digit_char_facts c h
    exact ⟨hf.2.1, hf.2.2.1, hf.2.2.2.1, hf.2.2.2.2.1, hf.2.2.2.2.2.1⟩

theorem jsStartsWithQ_ne {s : String} {c : Char} {rest : List Char}
    (hd : s.data = c :: rest) (hc : c ≠ '"') : jsStartsWithQ s = false := by
  rw [jsStartsWithQ, hd]
  simp [hc]

theorem qToFixed1_not_quoted (q : Q0) : jsStartsWithQ (qToFixed1 q) = false := by
  cases hd : (qToFixed1 q).data with
  | nil => rw [jsStartsWithQ, hd]
  | cons c rest =>
    have hc : c ∈ (qToFixed1 q).data := by rw [hd]; simp
    exact jsStartsWithQ_ne hd (qToFixed1_char_facts q c hc).2.2.1

theorem intToStr_not_quoted (z : Int) : jsStartsWithQ (intToStr z) = false := by
  cases hd : (intToStr z).data with
  | nil => rw [jsStartsWithQ, hd]
  | cons c rest =>
    have hc : c ∈ (intToStr z).data := by rw [hd]; simp
    exact jsStartsWithQ_ne hd (intToStr_char_facts z c hc).2.2.1

theorem unquoteField_not_quoted {s : String} (h : jsStartsWithQ s = false) :
    unquoteField s = s := by
  rw [unquoteField, if_neg]
  intro hand
  rw [h] at hand
  exact Bool.false_ne_true hand.1

theorem unquoteField_of_not {s : String}
    (h : ¬(jsStartsWithQ s = true ∧ jsEndsWithQ s = true)) : unquoteField s = s := by
  rw [unquoteField, if_neg h]

theorem parseValue_qToFixed1 (q : Q0) (hq : q.n.natAbs < 10 ^ 30) :
    parseValue (qToFixed1 q) "REAL" = .vnum (.fin (roundReal1 q)) := by
  have hdot : ('.' : Char) ∈ (qToFixed1 q).data := by
    rw [qToFixed1_data]
    simp
  have hne : qToFixed1 q ≠ "" := by
    intro hh
    rw [hh] at hdot
    simp at hdot
  rw [parseValue, if_neg hne]
  dsimp only
  rw [cleanRealValue_eq_self (fun c hc =>
    ⟨(qToFixed1_char_facts q c hc).2.1, (qToFixed1_char_facts q c hc).2.2.2.2.2⟩)]
  rw [jsParseFloat_qToFixed1 q hq]

theorem saveFieldValue_not_real (t : String) (v : JsVal) (h : t ≠ "REAL") :
    saveFieldValue t (some v) = v := by
  rw [show saveFieldValue t (some v) =
    (if t = "REAL" then
      (match v with
       | .vnum x => JsVal.vstr (jsToFixed1 x)
       | .vstr s =>
         match jsParseFloat s with
         | .nan => JsVal.vstr s
         | x => JsVal.vstr (jsToFixed1 x)
       | .vundef => JsVal.vundef) else v) from rfl]
  rw [if_neg h]

theorem saveFieldValue_real_num (x : JsNum) :
    saveFieldValue "REAL" (some (.vnum x)) = .vstr (jsToFixed1 x) := rfl

theorem escapeCSVField_vstr (s : String) : escapeCSVField (.vstr s) = escString s := rfl

theorem escapeCSVField_vnum (x : JsNum) :
    escapeCSVField (.vnum x) = escString (jsNumToString x) := rfl

theorem roundCell_not_real (t : String) (v : JsVal) (h : t ≠ "REAL") :
    roundCell t v = v := by
  rw [show roundCell t v = (if t = "REAL" then
      (match v with
       | .vnum (.fin q) => JsVal.vnum (.fin (roundReal1 q))
       | w => w) else v) from rfl]
  rw [if_neg h]

theorem roundCell_real_fin (q : Q0) :
    roundCell "REAL" (.vnum (.fin q)) = .vnum (.fin (roundReal1 q)) := rfl

theorem qToString_int (q : Q0) (h : q.d = 1) : qToString q = intToStr q.n := by
  rw [qToString, if_pos h]

/-! ### Row construction lemmas -/

theorem rowSet_append (r : Row) (key : String) (v : JsVal)
    (h : ∀ p ∈ r, p.1 ≠ key) : rowSet r key v = r ++ [(key, v)] := by
  rw [rowSet]
  rw [List.find?_eq_none.mpr (fun p hp => by simp [h p hp])]
  simp

theorem parseRowFields_map (schema : List Col) (f : Col → String)
    (hnd : (schema.map Col.name).Nodup) :
    parseRowFields schema (schema.map f) =
      schema.map fun col => (col.name, parseValue (unquoteField (f col)) col.type) := by
  induction schema using List.reverseRecOn with
  | nil => rfl
  | append_singleton s c ih =>
    have hnd2 : (s.map Col.name).Nodup := by
      rw [List.map_append] at hnd
      exact (List.nodup_append.mp hnd).1
    have hnotin : c.name ∉ s.map Col.name := by
      rw [List.map_append] at hnd
      intro hmem
      exact (List.nodup_append.mp hnd).2.2 hmem (by simp)
    rw [parseRowFields, List.length_append, List.length_singleton, List.range_succ,
      List.foldl_append]
    have hinner : (List.range s.length).foldl
        (fun row j =>
          match (s ++ [c]).get? j with
          | none => row
          | some col =>
            let value := ((((s ++ [c]).map f).get? j)).getD ""
            rowSet row col.name (parseValue (unquoteField value) col.type)) [] =
        parseRowFields s (s.map f) := by
      rw [parseRowFields]
      apply List.foldl_ext
      intro acc j hj
      have hjlt : j < s.length := List.mem_range.mp hj
      rw [List.get?_append hjlt, List.map_append,
        List.get?_append (by simpa using hjlt)]
    rw [hinner, ih hnd2]
    rw [List.foldl_cons, List.foldl_nil, List.get?_concat_length]
    dsimp only
    rw [List.map_append, List.map_singleton]
    rw [show (List.map f s ++ [f c]).get? s.length = some (f c) from by
      rw [show s.length = (List.map f s).length from (List.length_map s f).symm,
        List.get?_concat_length]]
    rw [show (some (f c)).getD "" = f c from rfl]
    rw [rowSet_append _ _ _ (fun p hp => by
      obtain ⟨col, hcol, rfl⟩ := List.mem_map.mp hp
      intro hh
      exact hnotin (hh ▸ List.mem_map_of_mem _ hcol))]
    rw [List.map_append, List.map_singleton]

theorem rowGet_of_names : ∀ (schema : List Col) (row : Row),
    row.length = schema.length →
    (∀ i col cell, schema.get? i = some col → row.get? i = some cell → cell.1 = col.name) →
    (schema.map Col.name).Nodup →
    ∀ i col cell, schema.get? i = some col → row.get? i = some cell →
      rowGet row col.name = some cell.2 := by
  intro schema
  induction schema with
  | nil =>
    intro row _ _ _ i col cell hcol
    simp at hcol
  | cons c0 schema ih =>
    intro row hlen hname hnd i col cell hcol hcell
    cases row with
    | nil => simp at hlen
    | cons cell0 row =>
      have h0 : cell0.1 = c0.name := hname 0 c0 cell0 (by simp) (by simp)
      cases i with
      | zero =>
        simp at hcol hcell
        subst hcol
        subst hcell
        cases cell0 with
        | mk k v =>
          rw [rowGet, if_pos h0]
      | succ i =>
        have hcol' : schema.get? i = some col := by simpa using hcol
        have hcell' : row.get? i = some cell := by simpa using hcell
        have hmemcol : col.name ∈ schema.map Col.name := by
          have : col ∈ schema := List.get?_mem hcol'
          exact List.mem_map_of_mem _ this
        have hndc : c0.name ∉ schema.map Col.name := by
          rw [List.map_cons] at hnd
          exact (List.nodup_cons.mp hnd).1
        have hne : cell0.1 ≠ col.name := by
          rw [h0]
          intro hh
          exact hndc (hh ▸ hmemcol)
        cases cell0 with
        | mk k v =>
          rw [rowGet, if_neg hne]
          exact ih row (by simpa using hlen)
            (fun j col2 cell2 h1 h2 => hname (j + 1) col2 cell2 (by simpa using h1)
              (by simpa using h2))
            (by rw [List.map_cons] at hnd; exact (List.nodup_cons.mp hnd).2)
            i col cell hcol' hcell'

/-! ### Per-cell round trip -/

theorem cellPayload_text (s : String) : cellPayload "TEXT" (.vstr s) = s := by
  rw [cellPayload, saveFieldValue_not_real _ _ (by decide)]
  rfl

theorem cellPayload_int (q : Q0) (hd : q.d = 1) :
    cellPayload "INT" (.vnum (.fin q)) = intToStr q.n := by
  rw [cellPayload, saveFieldValue_not_real _ _ (by decide)]
  rw [show jsValToString (JsVal.vnum (.fin q)) = qToString q from rfl, qToString_int q hd]

theorem cellPayload_real (q : Q0) : cellPayload "REAL" (.vnum (.fin q)) = qToFixed1 q := by
  rw [cellPayload, saveFieldValue_real_num]
  rfl

theorem cell_all (t : String) (v : JsVal)
    (ht : t = "TEXT" ∨ t = "INT" ∨ t = "REAL") (hv : cellSafe t v) :
    escapeCSVField (saveFieldValue t (some v)) = escString (cellPayload t v) ∧
    jsTrim (cellPayload t v) = cellPayload t v ∧
    (∀ c ∈ (cellPayload t v).data, c ≠ '\n' ∧ c ≠ '\x0d') ∧
    parseValue (unquoteField (cellPayload t v)) t = roundCell t v := by
  rcases ht with rfl | rfl | rfl
  · cases v with
    | vstr s =>
      obtain ⟨hcr, htrim, hq⟩ := hv
      refine ⟨?_, ?_, ?_, ?_⟩
      · rw [saveFieldValue_not_real _ _ (by decide), escapeCSVField_vstr, cellPayload_text]
      · rw [cellPayload_text]; exact htrim
      · rw [cellPayload_text]; exact hcr
      · rw [cellPayload_text, unquoteField_of_not hq, parseValue_text,
          roundCell_not_real _ _ (by decide)]
    | vnum x => exact hv.elim
    | vundef => exact hv.elim
  · cases v with
    | vstr s => exact hv.elim
    | vundef => exact hv.elim
    | vnum x =>
      cases x with
      | fin q =>
        obtain ⟨hd1, hlt⟩ := hv
        have hq1 : q = ⟨q.n, 1⟩ := by
          cases q with
          | mk n d => rw [show d = 1 from hd1]
        refine ⟨?_, ?_, ?_, ?_⟩
        · rw [saveFieldValue_not_real _ _ (by decide), escapeCSVField_vnum,
            cellPayload_int q hd1, show jsNumToString (JsNum.fin q) = qToString q from rfl,
            qToString_int q hd1]
        · rw [cellPayload_int q hd1]
          exact jsTrim_eq_self (fun c hc => (intToStr_char_facts q.n c hc).1)
        · rw [cellPayload_int q hd1]
          intro c hc
          exact ⟨(intToStr_char_facts q.n c hc).2.2.2.1,
            (intToStr_char_facts q.n c hc).2.2.2.2⟩
        · rw [cellPayload_int q hd1, unquoteField_not_quoted (intToStr_not_quoted q.n),
            parseValue_intToStr q.n (lt_trans hlt (by norm_num)),
            roundCell_not_real _ _ (by decide)]
          rw [show qOfInt q.n = (⟨q.n, 1⟩ : Q0) from rfl, ← hq1]
      | nan => exact hv.elim
      | inf => exact hv.elim
      | ninf => exact hv.elim
  · cases v with
    | vstr s => exact hv.elim
    | vundef => exact hv.elim
    | vnum x =>
      cases x with
      | fin q =>
        refine ⟨?_, ?_, ?_, ?_⟩
        · rw [saveFieldValue_real_num, escapeCSVField_vstr, cellPayload_real,
            show jsToFixed1 (JsNum.fin q) = qToFixed1 q from rfl]
        · rw [cellPayload_real]
          exact jsTrim_eq_self (fun c hc => (qToFixed1_char_facts q c hc).1)
        · rw [cellPayload_real]
          intro c hc
          exact ⟨(qToFixed1_char_facts q c hc).2.2.2.1,
            (qToFixed1_char_facts q c hc).2.2.2.2.1⟩
        · rw [cellPayload_real, unquoteField_not_quoted (qToFixed1_not_quoted q),
            parseValue_qToFixed1 q hv, roundCell_real_fin]
      | nan => exact hv.elim
      | inf => exact hv.elim
      | ninf => exact hv.elim

theorem rowSafe_get (schema : List Col) (row : Row)
    (hnd : (schema.map Col.name).Nodup) (hs : rowSafe schema row) :
    ∀ col ∈ schema, ∃ v, rowGet row col.name = some v ∧ cellSafe col.type v := by
  intro col hcol
  obtain ⟨i, hi⟩ := List.mem_iff_get?.mp hcol
  have hilt : i < schema.length := by
    by_contra hge
    rw [List.get?_eq_none.mpr (by omega)] at hi
    cases hi
  obtain ⟨cell, hcell⟩ : ∃ cell, row.get? i = some cell := by
    cases hc : row.get? i with
    | some cell => exact ⟨cell, rfl⟩
    | none =>
      rw [List.get?_eq_none] at hc
      rw [hs.1] at hc
      omega
  have hcc := hs.2 i col (Option.mem_def.mpr hi) cell (Option.mem_def.mpr hcell)
  exact ⟨cell.2,
    rowGet_of_names schema row hs.1
      (fun j cj cellj h1 h2 =>
        (hs.2 j cj (Option.mem_def.mpr h1) cellj (Option.mem_def.mpr h2)).1)
      hnd i col cell hi hcell,
    hcc.2⟩

/-! ### Row line round trip -/

theorem row_line_parse (schema : List Col) (row : Row)
    (hsch : ∀ col ∈ schema, col.type = "TEXT" ∨ col.type = "INT" ∨ col.type = "REAL")
    (hnd : (schema.map Col.name).Nodup) (hrow : rowSafe schema row)
    (hne : schema ≠ []) :
    parseRowFields schema (parseCSVLine (serializeRowLine schema row)) =
      roundTripRow schema row ∧
    (∀ c ∈ (serializeRowLine schema row).data, c ≠ '\n' ∧ c ≠ '\x0d') := by
  have hget := rowSafe_get schema row hnd hrow
  have hraw : ∀ col ∈ schema,
      escapeCSVField (saveFieldValue col.type (rowGet row col.name)) =
        escString (cellPayload col.type ((rowGet row col.name).getD .vundef)) ∧
      jsTrim (cellPayload col.type ((rowGet row col.name).getD .vundef)) =
        cellPayload col.type ((rowGet row col.name).getD .vundef) ∧
      (∀ c ∈ (cellPayload col.type ((rowGet row col.name).getD .vundef)).data,
        c ≠ '\n' ∧ c ≠ '\x0d') ∧
      parseValue (unquoteField (cellPayload col.type ((rowGet row col.name).getD .vundef)))
        col.type = roundCell col.type ((rowGet row col.name).getD .vundef) := by
    intro col hcol
    obtain ⟨v, hv, hsafe⟩ := hget col hcol
    rw [hv]
    rw [show (some v).getD JsVal.vundef = v from rfl]
    exact cell_all col.type v (hsch col hcol) hsafe
  have hserial : serializeRowLine schema row =
      joinWith ","
        ((schema.map fun col => cellPayload col.type ((rowGet row col.name).getD .vundef)).map
          escString) := by
    rw [serializeRowLine, List.map_map]
    congr 1
    apply List.map_congr_left
    intro col hcol
    exact (hraw col hcol).1
  have hscan : parseCSVLine (serializeRowLine schema row) =
      schema.map fun col => cellPayload col.type ((rowGet row col.name).getD .vundef) := by
    rw [hserial]
    have hsf := scanFields
      (schema.map fun col => cellPayload col.type ((rowGet row col.name).getD .vundef))
      (fun s hs => by
        obtain ⟨col, hcol, rfl⟩ := List.mem_map.mp hs
        exact (hraw col hcol).2.1) []
      (fun hh => hne (List.map_eq_nil_iff.mp hh))
    rw [parseCSVLine, hsf, List.nil_append]
  refine ⟨?_, ?_⟩
  · rw [hscan, parseRowFields_map schema _ hnd, roundTripRow]
    apply List.map_congr_left
    intro col hcol
    dsimp only
    rw [(hraw col hcol).2.2.2]
  · intro c hc
    rw [hserial] at hc
    rcases mem_joinWith "," _ hc with h1 | ⟨s, hs, hcs⟩
    · rw [show ("," : String).data = [','] from rfl] at h1
      simp at h1
      subst h1
      exact ⟨by decide, by decide⟩
    · obtain ⟨payload, hp, rfl⟩ := List.mem_map.mp hs
      obtain ⟨col, hcol, rfl⟩ := List.mem_map.mp hp
      rcases mem_escString hcs with h2 | h2
      · exact (hraw col hcol).2.2.1 c h2
      · subst h2
        exact ⟨by decide, by decide⟩

/-! ### Schema line round trip and main assembly -/

theorem str_ne_empty_of_data {s : String} (h : s.data ≠ []) : s ≠ "" :=
  fun hh => h (by rw [hh])

theorem joinWith_head_ne_empty (sep : String) (x : String) (xs : List String)
    (hx : x.data ≠ []) : (joinWith sep (x :: xs)).data ≠ [] := by
  cases xs with
  | nil => exact hx
  | cons y ys =>
    rw [show joinWith sep (x :: y :: ys) = x ++ sep ++ joinWith sep (y :: ys) from rfl,
      String.data_append, String.data_append]
    intro hh
    rcases List.append_eq_nil.mp hh with ⟨h1, _⟩
    rcases List.append_eq_nil.mp h1 with ⟨h2, _⟩
    exact hx h2

theorem schema_line_parse (schema : List Col)
    (hcols : ∀ col ∈ schema, identOk col.name ∧
      (col.type = "TEXT" ∨ col.type = "INT" ∨ col.type = "REAL"))
    (hne : schema ≠ []) :
    parseSchema (joinWith "," (schema.map fun col => col.name ++ ":" ++ col.type)) = schema ∧
    jsTrim (joinWith "," (schema.map fun col => col.name ++ ":" ++ col.type)) =
      joinWith "," (schema.map fun col => col.name ++ ":" ++ col.type) ∧
    (joinWith "," (schema.map fun col => col.name ++ ":" ++ col.type)) ≠ "" ∧
    (∀ c ∈ (joinWith "," (schema.map fun col => col.name ++ ":" ++ col.type)).data,
      c ≠ '\n' ∧ c ≠ '\x0d') := by
  have hT : ∀ x ∈ ("TEXT" : String).data, isWordC x = true := by decide
  have hI : ∀ x ∈ ("INT" : String).data, isWordC x = true := by decide
  have hR : ∀ x ∈ ("REAL" : String).data, isWordC x = true := by decide
  have hfchars : ∀ col ∈ schema, ∀ c ∈ (col.name ++ ":" ++ col.type).data,
      isWordC c = true ∨ c = ':' := by
    intro col hcol c hc
    rw [String.data_append, String.data_append] at hc
    rcases List.mem_append.mp hc with h1 | h1
    · rcases List.mem_append.mp h1 with h2 | h2
      · left; exact (hcols col hcol).1.2 c h2
      · right
        rw [show (":" : String).data = [':'] from rfl] at h2
        simpa using h2
    · left
      rcases (hcols col hcol).2 with ht | ht | ht <;> rw [ht] at h1
      exacts [hT c h1, hI c h1, hR c h1]
  have hfacts : ∀ col ∈ schema, ∀ c ∈ (col.name ++ ":" ++ col.type).data,
      jsIsWs c = false ∧ c ≠ ',' ∧ c ≠ '"' ∧ c ≠ '\n' ∧ c ≠ '\x0d' := by
    intro col hcol c hc
    rcases hfchars col hcol c hc with hw | hw
    · exact ⟨wordC_not_ws hw, (wordC_ne hw).2.1, (wordC_ne hw).2.2.1,
        (wordC_ne hw).2.2.2.1, (wordC_ne hw).2.2.2.2⟩
    · subst hw
      exact ⟨by decide, by decide, by decide, by decide, by decide⟩
  have hescmap :
      (schema.map fun col => col.name ++ ":" ++ col.type).map escString =
        schema.map fun col => col.name ++ ":" ++ col.type := by
    rw [List.map_congr_left (g := id) (fun s hs => by
      obtain ⟨col, hcol, rfl⟩ := List.mem_map.mp hs
      show escString _ = _
      refine escString_eq_self ?_ ?_ ?_ ?_
      · intro hmem; exact (hfacts col hcol _ hmem).2.1 rfl
      · intro hmem; exact (hfacts col hcol _ hmem).2.2.1 rfl
      · intro hmem; exact (hfacts col hcol _ hmem).2.2.2.1 rfl
      · intro hmem; exact (hfacts col hcol _ hmem).2.2.2.2 rfl), List.map_id]
  have hlinechars : ∀ c ∈ (joinWith "," (schema.map fun col =>
      col.name ++ ":" ++ col.type)).data,
      jsIsWs c = false ∧ c ≠ '\n' ∧ c ≠ '\x0d' := by
    intro c hc
    rcases mem_joinWith "," _ hc with h1 | ⟨s, hs, hcs⟩
    · rw [show ("," : String).data = [','] from rfl] at h1
      simp at h1
      subst h1
      exact ⟨by decide, by decide, by decide⟩
    · obtain ⟨col, hcol, rfl⟩ := List.mem_map.mp hs
      exact ⟨(hfacts col hcol c hcs).1, (hfacts col hcol c hcs).2.2.2.1,
        (hfacts col hcol c hcs).2.2.2.2⟩
  have hscan : parseCSVLine (joinWith "," (schema.map fun col =>
      col.name ++ ":" ++ col.type)) = schema.map fun col => col.name ++ ":" ++ col.type := by
    have hsf := scanFields (schema.map fun col => col.name ++ ":" ++ col.type)
      (fun s hs => by
        obtain ⟨col, hcol, rfl⟩ := List.mem_map.mp hs
        exact jsTrim_eq_self (fun c hc => (hfacts col hcol c hc).1)) []
      (fun hh => hne (List.map_eq_nil_iff.mp hh))
    rw [hescmap] at hsf
    rw [parseCSVLine, hsf, List.nil_append]
  refine ⟨?_, ?_, ?_, ?_⟩
  · rw [parseSchema, hscan, List.map_map]
    have : ∀ col ∈ schema, ((fun c =>
        let parts := splitOnC ':' c
        let name := jsTrim (parts.headD "")
        let type := match parts with
          | _ :: t :: _ => jsUpper (jsTrim t)
          | _ => "TEXT"
        (⟨name, type⟩ : Col)) ∘ fun col => col.name ++ ":" ++ col.type) col = col := by
      intro col hcol
      exact schemaField_roundtrip col (hcols col hcol).1 (hcols col hcol).2
    rw [List.map_congr_left this]
    simp only [List.map_id_fun', List.map_id', List.map_id]
  · exact jsTrim_eq_self (fun c hc => (hlinechars c hc).1)
  · apply str_ne_empty_of_data
    cases schema with
    | nil => exact absurd rfl hne
    | cons c0 rest =>
      rw [List.map_cons]
      apply joinWith_head_ne_empty
      apply List.ne_nil_of_mem (a := ':')
      rw [String.data_append, String.data_append]
      rw [show (":" : String).data = [':'] from rfl]
      simp
  · intro c hc
    exact ⟨(hlinechars c hc).2.1, (hlinechars c hc).2.2⟩

/-- C2 (as amended): the CSV round-trip law.  For a table whose non-empty
schema has identifier-named, uniquely named TEXT / INT / REAL columns and
whose rows are schema-shaped with safe cells (TEXT cells free of CR and LF,
equal to their trimmed selves and not wrapped in double quotes; numeric
cells in range) and serialize to non-blank lines, loading the saved file
content yields the same schema and the same rows with every REAL cell
rounded to one fractional digit by toFixed(1). -/
theorem c2_csv_roundtrip (schema : List Col) (rows : List Row)
    (h : RoundTripSafe schema rows) :
    loadTableContent (saveTableContent schema rows) =
      some (schema, rows.map (roundTripRow schema)) := by
  obtain ⟨hne, hcols, hnd, hrows, hblank⟩ := h
  obtain ⟨hps, hsltrim, hslne, hslchars⟩ := schema_line_parse schema hcols hne
  have hsave : saveTableContent schema rows =
      joinWith "\n" ((joinWith "," (schema.map fun col => col.name ++ ":" ++ col.type)) ::
        rows.map (serializeRowLine schema)) := rfl
  have hlines : splitLines (saveTableContent schema rows) =
      (joinWith "," (schema.map fun col => col.name ++ ":" ++ col.type)) ::
        rows.map (serializeRowLine schema) := by
    rw [hsave]
    apply splitLines_joinWith
    · intro s hs
      rcases List.mem_cons.mp hs with h1 | h1
      · subst h1
        exact hslchars
      · obtain ⟨r, hr, rfl⟩ := List.mem_map.mp h1
        exact (row_line_parse schema r (fun col hcol => (hcols col hcol).2) hnd
          (hrows r hr) hne).2
    · simp
  have hfilter : (((joinWith "," (schema.map fun col => col.name ++ ":" ++ col.type)) ::
      rows.map (serializeRowLine schema)).filter fun line => jsTrim line ≠ "") =
      (joinWith "," (schema.map fun col => col.name ++ ":" ++ col.type)) ::
        rows.map (serializeRowLine schema) := by
    apply List.filter_eq_self.mpr
    intro line hline
    rcases List.mem_cons.mp hline with h1 | h1
    · subst h1
      simp only [decide_eq_true_eq]
      rw [hsltrim]
      exact hslne
    · obtain ⟨r, hr, rfl⟩ := List.mem_map.mp h1
      simp only [decide_eq_true_eq]
      exact hblank r hr
  rw [loadTableContent, hlines, hfilter]
  dsimp only
  rw [hps, List.map_map]
  apply congrArg some
  apply congrArg (Prod.mk schema)
  apply List.map_congr_left
  intro r hr
  exact (row_line_parse schema r (fun col hcol => (hcols col hcol).2) hnd (hrows r hr) hne).1

theorem c2w_roundTripSafe : RoundTripSafe c2wSchema c2wRows := by
  refine ⟨by decide, ?_, by decide, ?_, ?_⟩
  · intro col hcol
    fin_cases hcol <;> exact ⟨⟨by decide, by decide⟩, by decide⟩
  · intro row hrow
    obtain rfl := List.mem_singleton.mp hrow
    refine ⟨rfl, ?_⟩
    intro i col hcol cell hcell
    rcases i with _ | _ | _ | i
    · simp [c2wSchema] at hcol
      simp [c2wRow] at hcell
      subst hcol
      subst hcell
      exact ⟨rfl, ⟨by decide, by decide, by decide⟩⟩
    · simp [c2wSchema] at hcol
      simp [c2wRow] at hcell
      subst hcol
      subst hcell
      exact ⟨rfl, (by decide : ((5 : Int)).natAbs < 10 ^ 30)⟩
    · simp [c2wSchema] at hcol
      simp [c2wRow] at hcell
      subst hcol
      subst hcell
      exact ⟨rfl, ⟨rfl, (by decide : ((-5 : Int)).natAbs < 10 ^ 30)⟩⟩
    · simp [c2wSchema] at hcol
  · intro row hrow
    obtain rfl := List.mem_singleton.mp hrow
    decide

/-- C2 witness: the concrete table (Name TEXT with a comma in the cell,
Amount REAL 1.25, N INT -5) satisfies the round-trip hypotheses and the law
yields the same table with the REAL cell rounded to 1.3. -/
theorem c2_csv_roundtrip_witness :
    RoundTripSafe c2wSchema c2wRows ∧
    loadTableContent (saveTableContent c2wSchema c2wRows) =
      some (c2wSchema, c2wRows.map (roundTripRow c2wSchema)) :=
  ⟨c2w_roundTripSafe, c2_csv_roundtrip c2wSchema c2wRows c2w_roundTripSafe⟩


namespace JoinModel

theorem lookupN_all_ne {α : Type} (l : List (Nat × α)) (k : Nat)
    (h : ∀ p ∈ l, p.1 ≠ k) : lookupN l k = none := by
  induction l with
  | nil => rfl
  | cons a r ih =>
    rw [lookupN, if_neg (h a (by simp))]
    exact ih fun p hp => h p (by simp [hp])

theorem lookupN_append {α : Type} (l add : List (Nat × α)) (k : Nat)
    (h : ∀ p ∈ add, p.1 ≠ k) : lookupN (l ++ add) k = lookupN l k := by
  induction l with
  | nil => simpa using lookupN_all_ne add k h
  | cons a r ih =>
    rw [List.cons_append, lookupN, lookupN]
    by_cases ha : a.1 = k
    · rw [if_pos ha, if_pos ha]
    · rw [if_neg ha, if_neg ha]
      exact ih

theorem lookupN_setN_ne {α : Type} (l : List (Nat × α)) (id k : Nat) (v : α)
    (h : k ≠ id) : lookupN (setN l id v) k = lookupN l k := by
  induction l with
  | nil => rfl
  | cons a r ih =>
    simp only [setN, List.map_cons]
    by_cases ha : a.1 = id
    · rw [if_pos ha, lookupN, lookupN]
      have : a.1 ≠ k := by rw [ha]; exact fun hh => h hh.symm
      rw [if_neg this, if_neg this]
      exact ih
    · rw [if_neg ha, lookupN, lookupN]
      by_cases hk : a.1 = k
      · rw [if_pos hk, if_pos hk]
      · rw [if_neg hk, if_neg hk]
        exact ih

theorem lookupTbl_append_of_some (l add : List (String × HTable)) (k : String)
    (x : HTable) (h : lookupTbl l k = some x) : lookupTbl (l ++ add) k = some x := by
  induction l with
  | nil => cases h
  | cons a r ih =>
    rw [List.cons_append, lookupTbl]
    rw [lookupTbl] at h
    by_cases ha : a.1 = k
    · rwa [if_pos ha] at h ⊢
    · rw [if_neg ha] at h ⊢
      exact ih h

/-- What the deep-copy of column objects does to the heap. -/
theorem copyCols_spec (ids : List Nat) : ∀ (st : HState),
    (copyCols st ids).2.rowv = st.rowv ∧
    (copyCols st ids).2.tables = st.tables ∧
    st.next ≤ (copyCols st ids).2.next ∧
    (∃ add, (copyCols st ids).2.colv = st.colv ++ add ∧ ∀ p ∈ add, st.next ≤ p.1) ∧
    (∀ i ∈ (copyCols st ids).1, st.next ≤ i) := by
  induction ids with
  | nil =>
    intro st
    exact ⟨rfl, rfl, Nat.le_refl _, ⟨[], by simp [copyCols], by simp⟩, by simp [copyCols]⟩
  | cons id rest ih =>
    intro st
    have h := ih ⟨st.colv ++ [(st.next, colAt st id)], st.rowv, st.tables, st.next + 1⟩
    simp only [copyCols]
    obtain ⟨h1, h2, h3, ⟨add, hadd, haddb⟩, h5⟩ := h
    refine ⟨h1, h2, Nat.le_trans (Nat.le_succ _) h3, ⟨(st.next, colAt st id) :: add, ?_, ?_⟩, ?_⟩
    · rw [hadd]
      simp
    · intro p hp
      rcases hp with _ | hp
      · exact Nat.le_refl _
      · exact Nat.le_trans (Nat.le_succ _) (haddb p (by assumption))
    · intro i hi
      rcases hi with _ | hi
      · exact Nat.le_refl _
      · exact Nat.le_trans (Nat.le_succ _) (h5 i (by assumption))

/-- What the deep-copy of row objects does to the heap. -/
theorem copyRows_spec (ids : List Nat) : ∀ (st : HState),
    (copyRows st ids).2.colv = st.colv ∧
    (copyRows st ids).2.tables = st.tables ∧
    st.next ≤ (copyRows st ids).2.next ∧
    (∃ add, (copyRows st ids).2.rowv = st.rowv ++ add ∧ ∀ p ∈ add, st.next ≤ p.1) ∧
    (∀ i ∈ (copyRows st ids).1, st.next ≤ i) := by
  induction ids with
  | nil =>
    intro st
    exact ⟨rfl, rfl, Nat.le_refl _, ⟨[], by simp [copyRows], by simp⟩, by simp [copyRows]⟩
  | cons id rest ih =>
    intro st
    have h := ih ⟨st.colv, st.rowv ++ [(st.next, rowAt st id)], st.tables, st.next + 1⟩
    simp only [copyRows]
    obtain ⟨h1, h2, h3, ⟨add, hadd, haddb⟩, h5⟩ := h
    refine ⟨h1, h2, Nat.le_trans (Nat.le_succ _) h3, ⟨(st.next, rowAt st id) :: add, ?_, ?_⟩, ?_⟩
    · rw [hadd]
      simp
    · intro p hp
      rcases hp with _ | hp
      · exact Nat.le_refl _
      · exact Nat.le_trans (Nat.le_succ _) (haddb p (by assumption))
    · intro i hi
      rcases hi with _ | hi
      · exact Nat.le_refl _
      · exact Nat.le_trans (Nat.le_succ _) (h5 i (by assumption))

/-- What the duplicate-filtered schema push does to the heap. -/
theorem pushNewCols_spec (ids : List Nat) : ∀ (st : HState) (curSchema : List Nat),
    (pushNewCols st curSchema ids).2.rowv = st.rowv ∧
    (pushNewCols st curSchema ids).2.tables = st.tables ∧
    st.next ≤ (pushNewCols st curSchema ids).2.next ∧
    (∃ add, (pushNewCols st curSchema ids).2.colv = st.colv ++ add ∧ ∀ p ∈ add, st.next ≤ p.1) ∧
    (∀ i ∈ (pushNewCols st curSchema ids).1, st.next ≤ i) := by
  induction ids with
  | nil =>
    intro st curSchema
    exact ⟨rfl, rfl, Nat.le_refl _, ⟨[], by simp [pushNewCols], by simp⟩, by simp [pushNewCols]⟩
  | cons id rest ih =>
    intro st curSchema
    simp only [pushNewCols]
    by_cases hdup : curSchema.any fun i => (colAt st i).name = (colAt st id).name
    · rw [if_pos hdup]
      exact ih st curSchema
    · rw [if_neg hdup]
      have h := ih ⟨st.colv ++ [(st.next, colAt st id)], st.rowv, st.tables, st.next + 1⟩
        (curSchema ++ [st.next])
      obtain ⟨h1, h2, h3, ⟨add, hadd, haddb⟩, h5⟩ := h
      refine ⟨h1, h2, Nat.le_trans (Nat.le_succ _) h3,
        ⟨(st.next, colAt st id) :: add, ?_, ?_⟩, ?_⟩
      · rw [hadd]
        simp
      · intro p hp
        rcases hp with _ | hp
        · exact Nat.le_refl _
        · exact Nat.le_trans (Nat.le_succ _) (haddb p (by assumption))
      · intro i hi
        rcases hi with _ | hi
        · exact Nat.le_refl _
        · exact Nat.le_trans (Nat.le_succ _) (h5 i (by assumption))

/-- The join loop mutates only the listed (freshly allocated) row
objects. -/
theorem joinRows_spec (jc : String) (ncols : List Nat) (lk : List (String × Nat))
    (rids : List Nat) : ∀ (st : HState),
    (joinRows jc ncols lk st rids).colv = st.colv ∧
    (joinRows jc ncols lk st rids).tables = st.tables ∧
    (joinRows jc ncols lk st rids).next = st.next ∧
    (∀ k, (∀ r ∈ rids, k ≠ r) → lookupN (joinRows jc ncols lk st rids).rowv k = lookupN st.rowv k) := by
  induction rids with
  | nil =>
    intro st
    exact ⟨rfl, rfl, rfl, fun k _ => rfl⟩
  | cons rid rest ih =>
    intro st
    simp only [joinRows]
    obtain ⟨h1, h2, h3, h4⟩ := ih
      ⟨st.colv, setN st.rowv rid _, st.tables, st.next⟩
    refine ⟨h1, h2, h3, ?_⟩
    intro k hk
    rw [h4 k fun r hr => hk r (by simp [hr])]
    exact lookupN_setN_ne st.rowv rid k _ (hk rid (by simp))

end JoinModel

/-- C10: JOIN_TABLE never modifies its source tables and the new table
shares no structure with them.  In the heap model, on success the left and
right tables' registry entries are unchanged, every object allocated
before the command (address below st.next) is unchanged, the new table's
objects are all freshly allocated, and (given a well-formed input heap)
none of its column or row objects is an object of any pre-existing
table — so mutating the new table cannot change either source. -/
theorem c10_join_table_frame (st : JoinModel.HState) (t t1 jc nn : String)
    (st2 : JoinModel.HState) (out : String) (hwf : JoinModel.WFState st)
    (h : JoinModel.joinTable st t t1 jc nn = (st2, .ok out)) :
    JoinModel.lookupTbl st2.tables t = JoinModel.lookupTbl st.tables t ∧
    JoinModel.lookupTbl st2.tables t1 = JoinModel.lookupTbl st.tables t1 ∧
    (∀ id, id < st.next → JoinModel.lookupN st2.colv id = JoinModel.lookupN st.colv id) ∧
    (∀ id, id < st.next → JoinModel.lookupN st2.rowv id = JoinModel.lookupN st.rowv id) ∧
    (∃ newT, JoinModel.lookupTbl st2.tables nn = some newT ∧
      (∀ id ∈ newT.schema ++ newT.rows, st.next ≤ id) ∧
      (∀ id ∈ newT.schema ++ newT.rows, ∀ tbl ∈ st.tables,
        id ∉ tbl.2.schema ∧ id ∉ tbl.2.rows)) := by
  unfold JoinModel.joinTable at h
  split at h
  next => simp at h
  next table h1 =>
  split at h
  next => simp at h
  next table1 h2 =>
  split at h
  next => simp at h
  next h3 =>
  split at h
  next => simp at h
  next h4 =>
  split at h
  next => simp at h
  next h5 =>
  split at h
  next => simp at h
  next h6 =>
  -- success path: name the intermediate states
  split at h
  next schemaIds st1 hcc =>
  split at h
  next rowIds stB hcr =>
  split at h
  next addedIds st3 hpn =>
  have s1 := JoinModel.copyCols_spec table.schema st
  rw [hcc] at s1
  simp only at s1
  obtain ⟨s1rv, s1tb, s1nx, ⟨addC1, haddC1, haddC1b⟩, s1ids⟩ := s1
  have s2 := JoinModel.copyRows_spec table.rows st1
  rw [hcr] at s2
  simp only at s2
  obtain ⟨s2cv, s2tb, s2nx, ⟨addR, haddR, haddRb⟩, s2ids⟩ := s2
  have s3 := JoinModel.pushNewCols_spec
    (table1.schema.filter fun id => (JoinModel.colAt stB id).name ≠ jc) stB schemaIds
  rw [hpn] at s3
  simp only at s3
  obtain ⟨s3rv, s3tb, s3nx, ⟨addC2, haddC2, haddC2b⟩, s3ids⟩ := s3
  set st4 := JoinModel.joinRows jc
    (table1.schema.filter fun id => (JoinModel.colAt stB id).name ≠ jc)
    (JoinModel.buildLookup st jc table1.rows []) st3 rowIds with hst4
  have s4 := JoinModel.joinRows_spec jc
    (table1.schema.filter fun id => (JoinModel.colAt stB id).name ≠ jc)
    (JoinModel.buildLookup st jc table1.rows []) rowIds st3
  rw [← hst4] at s4
  obtain ⟨s4cv, s4tb, s4nx, s4rv⟩ := s4
  have hst2 : st2 = ⟨st4.colv, st4.rowv, st4.tables ++ [(nn, ⟨schemaIds ++ addedIds, rowIds, nn ++ ".CSV"⟩)], st4.next⟩ := by
    have := congrArg Prod.fst h
    simpa using this.symm
  have hnn : JoinModel.lookupTbl st.tables nn = none := by
    cases hx : JoinModel.lookupTbl st.tables nn with
    | none => rfl
    | some x => rw [hx] at h4; simp at h4
  have htables : st4.tables = st.tables := by
    rw [s4tb, s3tb, s2tb, s1tb]
  have hnle : st.next ≤ st1.next := s1nx
  have hnle2 : st.next ≤ stB.next := Nat.le_trans hnle s2nx
  have hnle3 : st.next ≤ st3.next := Nat.le_trans hnle2 s3nx
  have hschemaIdsGe : ∀ i ∈ schemaIds, st.next ≤ i := s1ids
  have hrowIdsGe : ∀ i ∈ rowIds, st.next ≤ i := fun i hi => Nat.le_trans hnle (s2ids i hi)
  have haddedIdsGe : ∀ i ∈ addedIds, st.next ≤ i := fun i hi => Nat.le_trans hnle2 (s3ids i hi)
  refine ⟨?_, ?_, ?_, ?_, ?_⟩
  · rw [hst2]
    show JoinModel.lookupTbl (st4.tables ++ _) t = _
    rw [htables, JoinModel.lookupTbl_append_of_some st.tables _ t table h1, h1]
  · rw [hst2]
    show JoinModel.lookupTbl (st4.tables ++ _) t1 = _
    rw [htables, JoinModel.lookupTbl_append_of_some st.tables _ t1 table1 h2, h2]
  · intro id hid
    rw [hst2]
    show JoinModel.lookupN st4.colv id = _
    rw [s4cv, haddC2, s2cv, haddC1]
    rw [List.append_assoc]
    apply JoinModel.lookupN_append
    intro p hp
    rcases List.mem_append.mp hp with hp1 | hp1
    · exact fun hh => Nat.lt_irrefl _ (Nat.lt_of_lt_of_le hid (hh ▸ haddC1b p hp1))
    · exact fun hh => Nat.lt_irrefl _ (Nat.lt_of_lt_of_le hid
        (hh ▸ Nat.le_trans hnle2 (haddC2b p hp1)))
  · intro id hid
    rw [hst2]
    show JoinModel.lookupN st4.rowv id = _
    rw [s4rv id (fun r hr => fun hh => Nat.lt_irrefl _ (Nat.lt_of_lt_of_le hid (hh ▸ hrowIdsGe r hr)))]
    rw [s3rv, haddR, s1rv]
    apply JoinModel.lookupN_append
    intro p hp
    exact fun hh => Nat.lt_irrefl _ (Nat.lt_of_lt_of_le hid
      (hh ▸ Nat.le_trans hnle (haddRb p hp)))
  · refine ⟨⟨schemaIds ++ addedIds, rowIds, nn ++ ".CSV"⟩, ?_, ?_, ?_⟩
    · rw [hst2]
      show JoinModel.lookupTbl (st4.tables ++ _) nn = _
      rw [htables]
      have : ∀ (l : List (String × JoinModel.HTable)) (v : JoinModel.HTable),
          JoinModel.lookupTbl l nn = none → JoinModel.lookupTbl (l ++ [(nn, v)]) nn = some v := by
        intro l v hl
        induction l with
        | nil => simp [JoinModel.lookupTbl]
        | cons a r ih =>
          rw [JoinModel.lookupTbl] at hl
          rw [List.cons_append, JoinModel.lookupTbl]
          by_cases ha : a.1 = nn
          · rw [if_pos ha] at hl; cases hl
          · rw [if_neg ha] at hl ⊢
            exact ih hl
      exact this st.tables _ hnn
    · intro id hid
      rcases List.mem_append.mp hid with hid1 | hid1
      · rcases List.mem_append.mp hid1 with hid2 | hid2
        · exact hschemaIdsGe id hid2
        · exact haddedIdsGe id hid2
      · exact hrowIdsGe id hid1
    · intro id hid tbl htbl
      have hge : st.next ≤ id := by
        rcases List.mem_append.mp hid with hid1 | hid1
        · rcases List.mem_append.mp hid1 with hid2 | hid2
          · exact hschemaIdsGe id hid2
          · exact haddedIdsGe id hid2
        · exact hrowIdsGe id hid1
      obtain ⟨hwc, hwr, hwt⟩ := hwf
      constructor
      · intro hmem
        exact Nat.lt_irrefl _ (Nat.lt_of_lt_of_le ((hwt tbl htbl).1 id hmem) hge)
      · intro hmem
        exact Nat.lt_irrefl _ (Nat.lt_of_lt_of_le ((hwt tbl htbl).2 id hmem) hge)

/-- C10 witness: a concrete join of orders(CustId, Qty) with
customers(CustId, Name) — the source registry entries survive unchanged. -/
theorem c10_join_table_frame_witness :
    JoinModel.lookupTbl (JoinModel.joinTable c10state "orders" "customers" "CustId" "joined").1.tables
        "orders" = JoinModel.lookupTbl c10state.tables "orders" :=
  (c10_join_table_frame c10state "orders" "customers" "CustId" "joined"
    (JoinModel.joinTable c10state "orders" "customers" "CustId" "joined").1 "joined"
    (by refine ⟨?_, ?_, ?_⟩ <;> decide) rfl).1

/-- C4 witness: DELETE_ROWS 'Amount < 150' on rows with Amount 100.5 and
200.0 deletes the first row and keeps the second, schema unchanged. -/
theorem c4_delete_rows_is_filter_witness :
    deleteRow defaultHost c4reg "sales" "Amount < 150" =
      (updateT c4reg "sales"
        ⟨c4table.schema,
         c4table.rows.filter (deleteRowKeeps defaultHost c4reg "sales" "Amount < 150"),
         c4table.originalFile⟩,
       .ok (some (c4table.schema,
         c4table.rows.filter (deleteRowKeeps defaultHost c4reg "sales" "Amount < 150"))) none) ∧
    c4table.rows.filter (deleteRowKeeps defaultHost c4reg "sales" "Amount < 150") =
      [[("Amount", .vnum (.fin ⟨200, 1⟩))]] :=
  ⟨(c4_delete_rows_is_filter defaultHost c4reg "sales" "Amount < 150" c4table rfl).1, rfl⟩

end CsvEdit
